import Mathlib

/-!
Verification development for the review-scraper repository (`scraper.py`).

The Python source is shallowly embedded below.  Pure helper functions
(`validate_dates`, `parse_date`, `get_scraper`) are translated directly.
The CPython standard-library routines they call (`datetime.strptime`,
`datetime.fromisoformat`, `datetime.__init__` validation, `str.strip`,
`str.lower`, `str.replace`) are modelled at the level of their documented
matching semantics: `strptime` as the backtracking regular-expression
matcher CPython's `_strptime` builds from a format string, and
`fromisoformat` on the dashed/colon subset of ISO-8601 that the scraper's
own output can produce.  The network and BeautifulSoup layers are
abstracted as explicit inputs: a page of HTML is represented by the list
of review elements the CSS-selector queries of `_parse_review` would
locate in it, and each element by the (optional) sub-nodes those queries
return.
-/

/-! ## Characters and digits -/

/-- The whitespace characters of Python's `str.strip` / `\s` (ASCII range). -/
def pySpace (c : Char) : Bool :=
  c = ' ' || c = '\t' || c = '\n' || c = '\r' || c = '\x0b' || c = '\x0c'

/-- Numeric value of a decimal digit character, `none` otherwise. -/
def toDigit (c : Char) : Option Nat :=
  if 48 ≤ c.toNat ∧ c.toNat ≤ 57 then some (c.toNat - 48) else none

/-- The decimal digit character for `n % 10`. -/
def digitChar (n : Nat) : Char := Char.ofNat (48 + n % 10)

/-- Two-digit zero-padded decimal rendering (`'%02d'`). -/
def pad2 (n : Nat) : List Char := [digitChar (n / 10), digitChar n]

/-- Four-digit zero-padded decimal rendering (`'%04d'`). -/
def pad4 (n : Nat) : List Char :=
  [digitChar (n / 1000), digitChar (n / 100), digitChar (n / 10), digitChar n]

/-- Six-digit zero-padded decimal rendering (`'%06d'`), used by
`datetime.isoformat` for microseconds. -/
def pad6 (n : Nat) : List Char :=
  [digitChar (n / 100000), digitChar (n / 10000), digitChar (n / 1000),
   digitChar (n / 100), digitChar (n / 10), digitChar n]

/-! ## The `datetime` value produced by the parsing routines -/

/-- A CPython `datetime.datetime` value: calendar fields plus an optional
fixed UTC offset in minutes (the only `tzinfo` the scraper can create is
`datetime.timezone(timedelta)` coming out of `fromisoformat`). -/
structure PyDateTime where
  year : Nat
  month : Nat
  day : Nat
  hour : Nat
  minute : Nat
  second : Nat
  microsecond : Nat
  tzOffset : Option Int
deriving DecidableEq

/-- `True` iff `year` is a leap year (Gregorian rule, as in `calendar.isleap`). -/
def isLeap (y : Nat) : Bool := y % 4 = 0 && (y % 100 ≠ 0 || y % 400 = 0)

/-- Number of days in the given month, 0 for an invalid month number. -/
def daysInMonth (y m : Nat) : Nat :=
  if m = 1 ∨ m = 3 ∨ m = 5 ∨ m = 7 ∨ m = 8 ∨ m = 10 ∨ m = 12 then 31
  else if m = 4 ∨ m = 6 ∨ m = 9 ∨ m = 11 then 30
  else if m = 2 then (if isLeap y then 29 else 28)
  else 0

/-- The argument checks performed by the `datetime.datetime` constructor
(`MINYEAR ≤ year ≤ MAXYEAR`, real calendar date, field ranges) together
with the `datetime.timezone` constraint that a fixed offset is strictly
between -24h and +24h. -/
def validDT (t : PyDateTime) : Bool :=
  1 ≤ t.year && t.year ≤ 9999 &&
  1 ≤ t.month && t.month ≤ 12 &&
  1 ≤ t.day && t.day ≤ daysInMonth t.year t.month &&
  t.hour ≤ 23 && t.minute ≤ 59 && t.second ≤ 59 && t.microsecond ≤ 999999 &&
  (match t.tzOffset with
   | none => true
   | some off => off.natAbs ≤ 1439)

/-- The validating `datetime.datetime(...)` constructor: `some` on legal
arguments, `none` where CPython raises `ValueError`. -/
def mkDT (y mo d h mi s us : Nat) (tz : Option Int) : Option PyDateTime :=
  let t : PyDateTime := ⟨y, mo, d, h, mi, s, us, tz⟩
  if validDT t then some t else none

/-- Lexicographic comparison of the seven naive fields, which is how
CPython compares two naive `datetime` values. -/
def cmp7 (a b : PyDateTime) : Ordering :=
  (compare a.year b.year).then <| (compare a.month b.month).then <|
  (compare a.day b.day).then <| (compare a.hour b.hour).then <|
  (compare a.minute b.minute).then <| (compare a.second b.second).then <|
  (compare a.microsecond b.microsecond)

/-- Rata-die style day number used to order timezone-aware values on the
absolute timeline; only its use inside `utcKey` matters to the model. -/
def rataDie (y m d : Nat) : Int :=
  let ym : Int := (y : Int) * 12 + (m : Int) - 3
  let era := ym / 12
  let moy := ym % 12
  era * 365 + era / 4 - era / 100 + era / 400 + (153 * moy + 2) / 5 + (d : Int)

/-- Absolute-timeline key (microseconds) of an aware value. -/
def utcKey (t : PyDateTime) (off : Int) : Int :=
  (((rataDie t.year t.month t.day * 1440 + (t.hour : Int) * 60 + (t.minute : Int) - off) * 60
     + (t.second : Int)) * 1000000 + (t.microsecond : Int))

/-- Python `a < b` on `datetime` values: defined for two naive or two
aware operands, `none` models the `TypeError` raised on a mixed pair. -/
def pyLtOpt (a b : PyDateTime) : Option Bool :=
  match a.tzOffset, b.tzOffset with
  | none, none => some (cmp7 a b = .lt)
  | some oa, some ob => some (utcKey a oa < utcKey b ob)
  | _, _ => none

/-- Python `a <= b` on `datetime` values, `none` on a mixed pair. -/
def pyLeOpt (a b : PyDateTime) : Option Bool :=
  match a.tzOffset, b.tzOffset with
  | none, none => some (cmp7 a b ≠ .gt)
  | some oa, some ob => some (utcKey a oa ≤ utcKey b ob)
  | _, _ => none

/-! ## `strptime`: CPython's format matcher

`datetime.strptime(data, fmt)` compiles `fmt` into one regular expression
(`_strptime.TimeRE`) and matches it case-insensitively against `data`.
Each directive becomes an alternation tried in a fixed order; whitespace
in the format becomes `\s+`; the overall match is the first one found by
backtracking, after which any unconsumed tail raises (`unconverted data
remains`) and the matched fields go through the validating `datetime`
constructor. -/

/-- Format-string directives appearing in `scraper.py`'s format lists. -/
inductive FTok where
  | Y4          -- %Y : (?P<Y>\d\d\d\d)
  | M2          -- %m : (?P<m>1[0-2]|0[1-9]|[1-9])
  | D2          -- %d : (?P<d>3[01]|[12]\d|0[1-9]|[1-9])
  | H24         -- %H : (?P<H>2[0-3]|[0-1]\d|\d)
  | Min         -- %M : (?P<M>[0-5]\d|\d)
  | Sec         -- %S : (?P<S>6[0-1]|[0-5]\d|\d)
  | I12         -- %I : (?P<I>1[0-2]|0[1-9]|[1-9])
  | AmPm        -- %p : (?P<p>am|pm)
  | MonthFull   -- %B : full month name
  | MonthAbbr   -- %b : abbreviated month name
  | lit (c : Char)
  | space       -- literal whitespace in the format: \s+
deriving DecidableEq

/-- Lower-case full month names with their month numbers (C locale). -/
def monthFullNames : List (List Char × Nat) :=
  [("january".data, 1), ("february".data, 2), ("march".data, 3),
   ("april".data, 4), ("may".data, 5), ("june".data, 6), ("july".data, 7),
   ("august".data, 8), ("september".data, 9), ("october".data, 10),
   ("november".data, 11), ("december".data, 12)]

/-- Lower-case abbreviated month names with their month numbers (C locale). -/
def monthAbbrNames : List (List Char × Nat) :=
  [("jan".data, 1), ("feb".data, 2), ("mar".data, 3), ("apr".data, 4),
   ("may".data, 5), ("jun".data, 6), ("jul".data, 7), ("aug".data, 8),
   ("sep".data, 9), ("oct".data, 10), ("nov".data, 11), ("dec".data, 12)]

/-- Candidate matches of a month-name directive: each listed name that is
a prefix of the input, with the value and the remaining input. -/
def candMonthName (names : List (List Char × Nat)) (cs : List Char) :
    List (Nat × List Char) :=
  names.filterMap fun p =>
    if p.1.isPrefixOf cs then some (p.2, cs.drop p.1.length) else none

/-- Candidates of `%m`/`%I` (`1[0-2]|0[1-9]|[1-9]`), in alternation order. -/
def candM (cs : List Char) : List (Nat × List Char) :=
  match cs with
  | c1 :: c2 :: rest =>
    (match toDigit c1, toDigit c2 with
     | some a, some b =>
       (if a = 1 ∧ b ≤ 2 then [(10 + b, rest)]
        else if a = 0 ∧ 1 ≤ b then [(b, rest)] else []) ++
       (if 1 ≤ a then [(a, c2 :: rest)] else [])
     | some a, none => if 1 ≤ a then [(a, c2 :: rest)] else []
     | none, _ => [])
  | [c1] =>
    (match toDigit c1 with
     | some a => if 1 ≤ a then [(a, [])] else []
     | none => [])
  | [] => []

/-- Candidates of `%d` (`3[01]|[12]\d|0[1-9]|[1-9]`), in alternation order. -/
def candD (cs : List Char) : List (Nat × List Char) :=
  match cs with
  | c1 :: c2 :: rest =>
    (match toDigit c1, toDigit c2 with
     | some a, some b =>
       (if a = 3 ∧ b ≤ 1 then [(30 + b, rest)]
        else if (a = 1 ∨ a = 2) then [(10 * a + b, rest)]
        else if a = 0 ∧ 1 ≤ b then [(b, rest)] else []) ++
       (if 1 ≤ a then [(a, c2 :: rest)] else [])
     | some a, none => if 1 ≤ a then [(a, c2 :: rest)] else []
     | none, _ => [])
  | [c1] =>
    (match toDigit c1 with
     | some a => if 1 ≤ a then [(a, [])] else []
     | none => [])
  | [] => []

/-- Candidates of `%H` (`2[0-3]|[0-1]\d|\d`), in alternation order. -/
def candH (cs : List Char) : List (Nat × List Char) :=
  match cs with
  | c1 :: c2 :: rest =>
    (match toDigit c1, toDigit c2 with
     | some a, some b =>
       (if a = 2 ∧ b ≤ 3 then [(20 + b, rest)]
        else if a ≤ 1 then [(10 * a + b, rest)] else []) ++
       [(a, c2 :: rest)]
     | some a, none => [(a, c2 :: rest)]
     | none, _ => [])
  | [c1] =>
    (match toDigit c1 with
     | some a => [(a, [])]
     | none => [])
  | [] => []

/-- Candidates of `%M` (`[0-5]\d|\d`), in alternation order. -/
def candMin (cs : List Char) : List (Nat × List Char) :=
  match cs with
  | c1 :: c2 :: rest =>
    (match toDigit c1, toDigit c2 with
     | some a, some b =>
       (if a ≤ 5 then [(10 * a + b, rest)] else []) ++ [(a, c2 :: rest)]
     | some a, none => [(a, c2 :: rest)]
     | none, _ => [])
  | [c1] =>
    (match toDigit c1 with
     | some a => [(a, [])]
     | none => [])
  | [] => []

/-- Candidates of `%S` (`6[0-1]|[0-5]\d|\d`), in alternation order. -/
def candSec (cs : List Char) : List (Nat × List Char) :=
  match cs with
  | c1 :: c2 :: rest =>
    (match toDigit c1, toDigit c2 with
     | some a, some b =>
       (if a = 6 ∧ b ≤ 1 then [(60 + b, rest)]
        else if a ≤ 5 then [(10 * a + b, rest)] else []) ++
       [(a, c2 :: rest)]
     | some a, none => [(a, c2 :: rest)]
     | none, _ => [])
  | [c1] =>
    (match toDigit c1 with
     | some a => [(a, [])]
     | none => [])
  | [] => []

/-- Candidates of `%Y` (`\d\d\d\d`): exactly four digits. -/
def candY4 (cs : List Char) : List (Nat × List Char) :=
  match cs with
  | c1 :: c2 :: c3 :: c4 :: rest =>
    (match toDigit c1, toDigit c2, toDigit c3, toDigit c4 with
     | some a, some b, some c, some d => [(1000 * a + 100 * b + 10 * c + d, rest)]
     | _, _, _, _ => [])
  | _ => []

/-- Candidates of `%p` (`am|pm`): 0 for "am", 1 for "pm". -/
def candAmPm (cs : List Char) : List (Nat × List Char) :=
  (if "am".data.isPrefixOf cs then [(0, cs.drop 2)] else []) ++
  (if "pm".data.isPrefixOf cs then [(1, cs.drop 2)] else [])

/-- Length of the leading whitespace run. -/
def spaceRun : List Char → Nat
  | [] => 0
  | c :: cs => if pySpace c then spaceRun cs + 1 else 0

/-- Candidates of format whitespace (`\s+`): greedy first, then shorter. -/
def candSpace (cs : List Char) : List (Nat × List Char) :=
  let n := spaceRun cs
  (List.range n).map fun i => (0, cs.drop (n - i))

/-- Candidate matches of one directive at the front of the input, in the
order the compiled regular expression tries its alternatives. -/
def cands : FTok → List Char → List (Nat × List Char)
  | .Y4, cs => candY4 cs
  | .M2, cs => candM cs
  | .D2, cs => candD cs
  | .H24, cs => candH cs
  | .Min, cs => candMin cs
  | .Sec, cs => candSec cs
  | .I12, cs => candM cs
  | .AmPm, cs => candAmPm cs
  | .MonthFull, cs => candMonthName monthFullNames cs
  | .MonthAbbr, cs => candMonthName monthAbbrNames cs
  | .lit c, cs =>
    (match cs with
     | c' :: rest => if c' = c then [(0, rest)] else []
     | [] => [])
  | .space, cs => candSpace cs

/-- The fields collected while matching, with `_strptime`'s defaults
(year 1900, month 1, day 1, midnight). -/
structure StAcc where
  y : Nat := 1900
  mo : Nat := 1
  d : Nat := 1
  h : Nat := 0
  mi : Nat := 0
  s : Nat := 0
  ampm : Option Bool := none   -- some false = "am", some true = "pm"
deriving DecidableEq

/-- Record the value matched by one directive. -/
def applyTok (t : FTok) (v : Nat) (acc : StAcc) : StAcc :=
  match t with
  | .Y4 => { acc with y := v }
  | .M2 => { acc with mo := v }
  | .MonthFull => { acc with mo := v }
  | .MonthAbbr => { acc with mo := v }
  | .D2 => { acc with d := v }
  | .H24 => { acc with h := v }
  | .I12 => { acc with h := v }
  | .Min => { acc with mi := v }
  | .Sec => { acc with s := v }
  | .AmPm => { acc with ampm := some (v = 1) }
  | .lit _ => acc
  | .space => acc

/-- Backtracking matcher: the first assignment of the directive list to a
prefix of the input, in regular-expression alternation order, together
with the unconsumed tail. -/
def matchToks : List FTok → List Char → StAcc → Option (StAcc × List Char)
  | [], cs, acc => some (acc, cs)
  | t :: ts, cs, acc =>
    (cands t cs).findSome? fun p => matchToks ts p.2 (applyTok t p.1 acc)

/-- `_strptime`'s 12-hour-clock adjustment applied after the match. -/
def adjustHour (acc : StAcc) : Nat :=
  match acc.ampm with
  | none => acc.h
  | some false => if acc.h = 12 then 0 else acc.h
  | some true => if acc.h = 12 then 12 else acc.h + 12

/-- `datetime.strptime(data, fmt)`: match the whole (lower-cased) input,
then construct the `datetime`; `none` where CPython raises `ValueError`. -/
def strptimeRun (toks : List FTok) (cs : List Char) : Option PyDateTime :=
  match matchToks toks (cs.map Char.toLower) {} with
  | some (acc, []) => mkDT acc.y acc.mo acc.d (adjustHour acc) acc.mi acc.s 0 none
  | _ => none

/-- The format `'%Y-%m-%d'` used by `validate_dates` (and first in
`parse_date`'s list). -/
def fmtYmd : List FTok := [.Y4, .lit '-', .M2, .lit '-', .D2]

/-! ## `validate_dates` (scraper.py lines 35-58) -/

/-- `validate_dates(start_date, end_date)`: parse both strictly with
`'%Y-%m-%d'`, raise `ValueError` on a parse failure or when
`start > end`, otherwise return the two parsed instants. -/
def validate_dates (start_date end_date : String) :
    Except String (PyDateTime × PyDateTime) :=
  match strptimeRun fmtYmd start_date.data, strptimeRun fmtYmd end_date.data with
  | some s, some e =>
    if cmp7 s e = .gt then
      .error "start_date must be less than or equal to end_date"
    else .ok (s, e)
  | _, _ => .error "Invalid date format. Use YYYY-MM-DD format."

/-! ## `parse_date` (scraper.py lines 61-107) -/

/-- The `date_formats` list of `parse_date`, in source order. -/
def dateFormats : List (List FTok) :=
  [fmtYmd,
   [.Y4, .lit '-', .M2, .lit '-', .D2, .space, .H24, .lit ':', .Min, .lit ':', .Sec],
   [.MonthFull, .space, .D2, .lit ',', .space, .Y4],
   [.MonthAbbr, .space, .D2, .lit ',', .space, .Y4],
   [.MonthFull, .space, .D2, .lit ',', .space, .Y4, .space, .I12, .lit ':', .Min, .space, .AmPm],
   [.MonthAbbr, .space, .D2, .lit ',', .space, .Y4, .space, .I12, .lit ':', .Min, .space, .AmPm],
   [.M2, .lit '/', .D2, .lit '/', .Y4],
   [.D2, .lit '/', .M2, .lit '/', .Y4],
   [.D2, .lit '-', .M2, .lit '-', .Y4],
   [.M2, .lit '-', .D2, .lit '-', .Y4],
   [.D2, .space, .MonthFull, .space, .Y4],
   [.D2, .space, .MonthAbbr, .space, .Y4]]

/-- The `for fmt in date_formats` loop: first format that parses wins. -/
def tryFormats : List (List FTok) → List Char → Option PyDateTime
  | [], _ => none
  | f :: fs, cs =>
    match strptimeRun f cs with
    | some t => some t
    | none => tryFormats fs cs

/-- Read one decimal digit pair (`int(s[p:p+2])` on a strict two-digit
substring). -/
def readD2 : List Char → Option (Nat × List Char)
  | c1 :: c2 :: rest =>
    (match toDigit c1, toDigit c2 with
     | some a, some b => some (10 * a + b, rest)
     | _, _ => none)
  | _ => none

/-- Read four decimal digits. -/
def readD4 : List Char → Option (Nat × List Char)
  | c1 :: c2 :: c3 :: c4 :: rest =>
    (match toDigit c1, toDigit c2, toDigit c3, toDigit c4 with
     | some a, some b, some c, some d => some (1000 * a + 100 * b + 10 * c + d, rest)
     | _, _, _, _ => none)
  | _ => none

/-- Left-to-right accumulation of decimal digits; fails on a non-digit. -/
def digitsToNatAux : Nat → List Char → Option Nat
  | acc, [] => some acc
  | acc, c :: cs =>
    match toDigit c with
    | some d => digitsToNatAux (acc * 10 + d) cs
    | none => none

/-- Value of a non-empty all-digit string (`int(s)` on the fraction). -/
def digitsToNat : List Char → Option Nat
  | [] => none
  | cs => digitsToNatAux 0 cs

/-- Split the time substring at the first `'-'`, else at the first `'+'`
(the timezone-marker scan of `fromisoformat`'s time parser); returns the
part before the sign and, when a sign is found, the sign (-1 or +1 as a
`Bool`, `true` = negative) with the part after it. -/
def findSplit (c : Char) : List Char → Option (List Char × List Char)
  | [] => none
  | x :: xs =>
    if x = c then some ([], xs)
    else (findSplit c xs).map fun p => (x :: p.1, p.2)

/-- See `findSplit`. -/
def splitTzParts (cs : List Char) : List Char × Option (Bool × List Char) :=
  match findSplit '-' cs with
  | some (a, b) => (a, some (true, b))
  | none =>
    match findSplit '+' cs with
    | some (a, b) => (a, some (false, b))
    | none => (cs, none)

/-- `HH[:MM[:SS[.f{1,6}]]]` with full consumption: the time-of-day parser
of `datetime.fromisoformat` (fraction scaled to microseconds). -/
def parseHMSF (cs : List Char) : Option (Nat × Nat × Nat × Nat) :=
  match readD2 cs with
  | none => none
  | some (h, r1) =>
    match r1 with
    | [] => some (h, 0, 0, 0)
    | c1 :: r2 =>
      if c1 = ':' then
        match readD2 r2 with
        | none => none
        | some (mi, r3) =>
          match r3 with
          | [] => some (h, mi, 0, 0)
          | c2 :: r4 =>
            if c2 = ':' then
              match readD2 r4 with
              | none => none
              | some (s, r5) =>
                match r5 with
                | [] => some (h, mi, s, 0)
                | c3 :: r6 =>
                  if c3 = '.' then
                    if 1 ≤ r6.length ∧ r6.length ≤ 6 then
                      match digitsToNat r6 with
                      | some v => some (h, mi, s, v * 10 ^ (6 - r6.length))
                      | none => none
                    else none
                  else none
            else none
      else none

/-- `datetime.fromisoformat` on the dashed/colon subset the scraper can
encounter: `YYYY-MM-DD[<sep>HH[:MM[:SS[.f{1,6}]]][±HH:MM]]` with any
single separator character.  (CPython 3.11 additionally accepts compact
and week-date spellings; those extra spellings are outside this model.)
The offset goes through the `timezone(timedelta(...))` range check. -/
def fromisoChars (cs : List Char) : Option PyDateTime :=
  match readD4 cs with
  | none => none
  | some (y, r1) =>
    match r1 with
    | [] => none
    | c1 :: r2 =>
      if c1 = '-' then
        match readD2 r2 with
        | none => none
        | some (mo, r3) =>
          match r3 with
          | [] => none
          | c2 :: r4 =>
            if c2 = '-' then
              match readD2 r4 with
              | none => none
              | some (d, r5) =>
                match r5 with
                | [] => mkDT y mo d 0 0 0 0 none
                | _sep :: timecs =>
                  let (timepart, tzpart) := splitTzParts timecs
                  match parseHMSF timepart with
                  | none => none
                  | some (h, mi, s, us) =>
                    match tzpart with
                    | none => mkDT y mo d h mi s us none
                    | some (sign, tzcs) =>
                      match tzcs with
                      | [t1, t2, tc, t3, t4] =>
                        if tc = ':' then
                          match toDigit t1, toDigit t2, toDigit t3, toDigit t4 with
                          | some a, some b, some c, some dd =>
                            let off : Nat := (10 * a + b) * 60 + (10 * c + dd)
                            if off < 1440 then
                              mkDT y mo d h mi s us
                                (some (if sign then -(off : Int) else (off : Int)))
                            else none
                          | _, _, _, _ => none
                        else none
                      | _ => none
            else none
      else none

/-- Python `str.strip()`. -/
def pyStrip (cs : List Char) : List Char :=
  ((cs.dropWhile pySpace).reverse.dropWhile pySpace).reverse

/-- Python `date_str.replace('Z', '+00:00')`. -/
def zReplace : List Char → List Char
  | [] => []
  | c :: cs => (if c = 'Z' then "+00:00".data else [c]) ++ zReplace cs

/-- `parse_date(date_str)` together with whether `logger.warning` fires.
The input is `none` for Python `None`, `some s` for a string; the first
component is the returned value, the second is `true` exactly when the
final `Could not parse date` warning is logged. -/
def parse_date_full (input : Option String) : Option PyDateTime × Bool :=
  match input with
  | none => (none, false)
  | some s =>
    if s = "" then (none, false)
    else
      let s' := pyStrip s.data
      match tryFormats dateFormats s' with
      | some t => (some t, false)
      | none =>
        match fromisoChars (zReplace s') with
        | some t => (some t, false)
        | none => (none, true)

/-- `parse_date(date_str)`: the returned value alone. -/
def parse_date (input : Option String) : Option PyDateTime :=
  (parse_date_full input).1

/-! ## `datetime.isoformat()` -/

/-- The characters of `t.isoformat()`:
`YYYY-MM-DDTHH:MM:SS[.ffffff][±HH:MM]`. -/
def isoChars (t : PyDateTime) : List Char :=
  pad4 t.year ++ '-' :: pad2 t.month ++ '-' :: pad2 t.day ++
  'T' :: pad2 t.hour ++ ':' :: pad2 t.minute ++ ':' :: pad2 t.second ++
  (if t.microsecond = 0 then [] else '.' :: pad6 t.microsecond) ++
  (match t.tzOffset with
   | none => []
   | some off =>
     (if off < 0 then '-' else '+') ::
       (pad2 (off.natAbs / 60) ++ ':' :: pad2 (off.natAbs % 60)))

/-- `t.isoformat()` as a string. -/
def isoformatStr (t : PyDateTime) : String := String.mk (isoChars t)

/-! ## Review elements and `_parse_review` (scraper.py lines 236-296)

`_parse_review` consults a BeautifulSoup element through five `find`
queries.  Each query either locates a node or does not; a located node is
modelled by the text `get_text(strip=True)` returns plus, for the date
node, the value of its `datetime` attribute when present. -/

/-- A located sub-node: its stripped text and its `datetime` attribute
(`none` when the attribute is absent). -/
structure Node where
  text : String
  datetimeAttr : Option String
deriving DecidableEq

/-- One review element, represented by the outcome of the five locator
queries of `_parse_review` (`none` = the query found no node). -/
structure Element where
  titleNode : Option Node
  descNode : Option Node
  dateNode : Option Node
  reviewerNode : Option Node
  ratingNode : Option Node
deriving DecidableEq

/-- The review dictionary built by `_parse_review`. -/
structure Review where
  source : String
  title : String
  description : String
  review_date : String
  reviewer_name : String
  rating : String
deriving DecidableEq

/-- First match of the regex `(\d+(?:\.\d+)?)` in the rating text: the
first maximal digit run, extended by `.`+digits when present. -/
def firstDecimal : List Char → Option (List Char)
  | [] => none
  | c :: rest =>
    if (toDigit c).isSome then
      let run := rest.takeWhile fun x => (toDigit x).isSome
      let after := rest.dropWhile fun x => (toDigit x).isSome
      some ((c :: run) ++
        match after with
        | '.' :: d :: tail =>
          if (toDigit d).isSome then
            '.' :: d :: (tail.takeWhile fun x => (toDigit x).isSome)
          else []
        | _ => [])
    else firstDecimal rest

/-- Title text extracted from an element (`''` when no node is found). -/
def titleOf (e : Element) : String := ((e.titleNode).map Node.text).getD ""

/-- Description text extracted from an element. -/
def descOf (e : Element) : String := ((e.descNode).map Node.text).getD ""

/-- Date text extracted from an element: visible text, overridden by the
`datetime` attribute when that attribute is present and truthy. -/
def dateTextOf (e : Element) : String :=
  match e.dateNode with
  | none => ""
  | some n =>
    match n.datetimeAttr with
    | some a => if a = "" then n.text else a
    | none => n.text

/-- Reviewer name extracted from an element. -/
def reviewerOf (e : Element) : String := ((e.reviewerNode).map Node.text).getD ""

/-- Rating extracted from an element: first decimal numeral in the
rating node's text, `''` when no node or no numeral. -/
def ratingOf (e : Element) : String :=
  match e.ratingNode with
  | none => ""
  | some n =>
    match firstDecimal n.text.data with
    | some ds => String.mk ds
    | none => ""

namespace G2Scraper

/-- `G2Scraper._parse_review(element)`: build the review dictionary from
the five located sub-fields and return it only when title or description
is non-empty (Python truthiness of the two strings), else `None`. -/
def _parse_review (e : Element) : Option Review :=
  let review : Review :=
    { source := "G2"
      title := titleOf e
      description := descOf e
      review_date := dateTextOf e
      reviewer_name := reviewerOf e
      rating := ratingOf e }
  if review.title ≠ "" ∨ review.description ≠ "" then some review else none

/-! ## The pagination loop of `G2Scraper.scrape_reviews` (lines 172-234)

The network is an explicit input: fetching page `k` either raises a
`requests.RequestException` or yields the review elements BeautifulSoup's
`find_all` locates in the response.  A run only ever fetches finitely
many pages, so the world is a finite list of page outcomes; a page beyond
the end of the list is a page in which `find_all` locates no review
elements (the listing is exhausted). -/

/-- Outcome of fetching one pagination page. -/
inductive FetchR where
  | ok (elems : List Element)
  | err                                   -- requests.RequestException
deriving DecidableEq

/-- Outcome of the per-page element loop (lines 206-221). -/
inductive PageScan where
  | earlyReturn                           -- `return reviews` at line 217
  | typeErr                               -- TypeError from a naive/aware comparison
  | collected (page_reviews : List Review)
deriving DecidableEq

/-- The `for element in review_elements` loop: parse each element, skip
records with empty or unparseable dates, return early when a parsed date
is strictly before `start`, and append records inside
`start ≤ date ≤ end` to `page_reviews` (the accumulator `acc`). -/
def scanPage (start stop : PyDateTime) : List Element → List Review → PageScan
  | [], acc => .collected acc
  | e :: es, acc =>
    match _parse_review e with
    | none => scanPage start stop es acc
    | some r =>
      if r.review_date = "" then scanPage start stop es acc
      else
        match parse_date (some r.review_date) with
        | none => scanPage start stop es acc
        | some dt =>
          match pyLtOpt dt start with
          | none => .typeErr
          | some true => .earlyReturn
          | some false =>
            match pyLeOpt start dt with
            | none => .typeErr
            | some false => scanPage start stop es acc
            | some true =>
              match pyLeOpt dt stop with
              | none => .typeErr
              | some false => scanPage start stop es acc
              | some true => scanPage start stop es (acc ++ [r])

/-- Result of the whole `while True` pagination loop. -/
inductive Collected where
  | normal (reviews : List Review)
  | typeErr
deriving DecidableEq

/-- The `while True` loop: fetch a page; a transport error or a page
with no review elements breaks the loop; an early return inside the
element loop returns the pages accumulated *before* this page (the
current page's `page_reviews` is discarded, see line 217); a page with
no in-range records breaks; otherwise extend and continue. -/
def paginate (start stop : PyDateTime) : List FetchR → List Review → Collected
  | [], acc => .normal acc
  | f :: rest, acc =>
    match f with
    | .err => .normal acc
    | .ok elems =>
      if elems.isEmpty then .normal acc
      else
        match scanPage start stop elems [] with
        | .earlyReturn => .normal acc
        | .typeErr => .typeErr
        | .collected pr =>
          if pr.isEmpty then .normal acc
          else paginate start stop rest (acc ++ pr)

/-- The world a single `scrape_reviews` run interacts with. -/
structure World where
  /-- Outcome of the search-page fetch of `search_company`: `.error` is a
  `requests.RequestException`, `.ok links` the hrefs of the
  `/products/...` anchors found in the response. -/
  searchLinks : Except Unit (List String)
  /-- Outcomes of the successive pagination-page fetches. -/
  pages : List FetchR

/-- `G2Scraper.search_company` (lines 142-170): on a transport error or
when no product link is found, return `None` (after logging); otherwise
the first product link resolved against the base URL. -/
def search_company (w : World) : Option String :=
  match w.searchLinks with
  | .error _ => none
  | .ok links =>
    match links with
    | [] => none
    | l :: _ => some ("https://www.g2.com" ++ l)

/-- Result of `G2Scraper.scrape_reviews`. -/
inductive ScrapeOutcome where
  | scrapingError                         -- raise ScrapingError (line 183)
  | typeErr                               -- uncaught TypeError
  | ok (reviews : List Review)
deriving DecidableEq

/-- `G2Scraper.scrape_reviews` (lines 172-234): resolve the company, then
run the pagination loop starting from an empty accumulator. -/
def scrape_reviews (start stop : PyDateTime) (w : World) : ScrapeOutcome :=
  match search_company w with
  | none => .scrapingError
  | some _ =>
    match paginate start stop w.pages [] with
    | .normal rs => .ok rs
    | .typeErr => .typeErr

end G2Scraper

/-! ## `get_scraper` (scraper.py lines 608-633) -/

/-- The three scraper classes the factory can instantiate. -/
inductive ScraperKind where
  | g2
  | capterra
  | trustradius
deriving DecidableEq

/-- Python `str.lower()` (on the ASCII letters that matter here). -/
def pyLower (s : String) : String := String.mk (s.data.map Char.toLower)

/-- `get_scraper(source, ...)`: lower-case the source, dispatch on the
three supported names, raise `ValueError` otherwise.  Constructing a
scraper performs no network activity (the constructor only stores the
arguments and creates a session object), which the model reflects by
being a pure function. -/
def get_scraper (source : String) : Except String ScraperKind :=
  let s := pyLower source
  if s = "g2" then .ok .g2
  else if s = "capterra" then .ok .capterra
  else if s = "trustradius" then .ok .trustradius
  else .error ("Unsupported source: " ++ s ++ ". Supported sources: G2, Capterra, TrustRadius")

/-! ## Spec-side definitions and concrete fixtures -/

/-- Follows the spec's words, for comparison with the code: a date string
"strictly in `YYYY-MM-DD`" — exactly ten characters, zero-padded
four-digit year, two-digit month and day, denoting a real calendar date
(year at least 1). -/
def specCanonicalYMD (s : String) : Option PyDateTime :=
  match s.data with
  | [y1, y2, y3, y4, h1, m1, m2, h2, d1, d2] =>
    if h1 = '-' ∧ h2 = '-' then
      match toDigit y1, toDigit y2, toDigit y3, toDigit y4,
            toDigit m1, toDigit m2, toDigit d1, toDigit d2 with
      | some a, some b, some c, some dd, some e, some f, some g, some h =>
        let y := 1000 * a + 100 * b + 10 * c + dd
        let mo := 10 * e + f
        let d := 10 * g + h
        if 1 ≤ y ∧ 1 ≤ mo ∧ mo ≤ 12 ∧ 1 ≤ d ∧ d ≤ daysInMonth y mo then
          some ⟨y, mo, d, 0, 0, 0, 0, none⟩
        else none
      | _, _, _, _, _, _, _, _ => none
    else none
  | _ => none

/-- The per-element cases of the spec's "zero in-window records" page:
the element yields no record, or a record with an empty or unparseable
date, or a parsed date that neither is strictly before the window start
nor lies inside the window (the comparisons all being defined). -/
def nonQualifying (start stop : PyDateTime) (e : Element) : Bool :=
  match G2Scraper._parse_review e with
  | none => true
  | some r =>
    if r.review_date = "" then true
    else
      match parse_date (some r.review_date) with
      | none => true
      | some dt =>
        match pyLtOpt dt start with
        | some false =>
          (match pyLeOpt start dt with
           | some false => true
           | some true => if pyLeOpt dt stop = some false then true else false
           | none => false)
        | _ => false

/-- Unpadded decimal numeral of a number below 100 (as Python would write
`3` or `13` in a `M/D/YYYY` date string). -/
def natChars (n : Nat) : List Char :=
  if n < 10 then [digitChar n] else [digitChar (n / 10), digitChar n]

/-- The string `A/B/Y` with unpadded `A`, `B` and four-digit year. -/
def slashString (a b y : Nat) : String :=
  String.mk (natChars a ++ '/' :: (natChars b ++ '/' :: pad4 y))

/-- Window start 2023-01-01 used by the concrete scenarios. -/
def winStart : PyDateTime := ⟨2023, 1, 1, 0, 0, 0, 0, none⟩

/-- Window end 2023-06-30 used by the concrete scenarios. -/
def winEnd : PyDateTime := ⟨2023, 6, 30, 0, 0, 0, 0, none⟩

/-- An element whose review is dated 2023-06-15, inside the window. -/
def elemIn : Element :=
  { titleNode := some ⟨"Great tool", none⟩
    descNode := none
    dateNode := some ⟨"2023-06-15", none⟩
    reviewerNode := none
    ratingNode := none }

/-- An element whose review is dated 2022-12-01, before the window start. -/
def elemOld : Element :=
  { titleNode := some ⟨"Old review", none⟩
    descNode := none
    dateNode := some ⟨"2022-12-01", none⟩
    reviewerNode := none
    ratingNode := none }

/-- An element whose review is dated 2023-07-15, after the window end. -/
def elemFuture : Element :=
  { titleNode := some ⟨"Future review", none⟩
    descNode := none
    dateNode := some ⟨"2023-07-15", none⟩
    reviewerNode := none
    ratingNode := none }

/-- An element whose review carries an unparseable relative date. -/
def elemRel : Element :=
  { titleNode := some ⟨"Relative date", none⟩
    descNode := none
    dateNode := some ⟨"3 months ago", none⟩
    reviewerNode := none
    ratingNode := none }

/-- An element in which neither a title nor a description is located. -/
def elemBare : Element :=
  { titleNode := none
    descNode := none
    dateNode := some ⟨"2023-06-15", none⟩
    reviewerNode := none
    ratingNode := none }

/-- The review `_parse_review` extracts from `elemIn`. -/
def reviewIn : Review :=
  { source := "G2", title := "Great tool", description := ""
    review_date := "2023-06-15", reviewer_name := "", rating := "" }

/-- The review `_parse_review` extracts from `elemOld`. -/
def reviewOld : Review :=
  { source := "G2", title := "Old review", description := ""
    review_date := "2022-12-01", reviewer_name := "", rating := "" }

/-- The review `_parse_review` extracts from `elemRel`. -/
def reviewRel : Review :=
  { source := "G2", title := "Relative date", description := ""
    review_date := "3 months ago", reviewer_name := "", rating := "" }

/-- Decidable equality for `Except`, used to evaluate concrete runs of
`validate_dates` and `get_scraper`. -/
instance {ε α : Type} [DecidableEq ε] [DecidableEq α] : DecidableEq (Except ε α) := fun x y =>
  match x, y with
  | .ok a, .ok b =>
    if h : a = b then isTrue (by rw [h]) else isFalse (by simp [h])
  | .error a, .error b =>
    if h : a = b then isTrue (by rw [h]) else isFalse (by simp [h])
  | .ok _, .error _ => isFalse (by simp)
  | .error _, .ok _ => isFalse (by simp)

/-- Maximal number of characters one directive can consume (used for the
"unconverted data remains" length argument); only the directives of the
whitespace-free formats need a bound. -/
def tokBound : FTok → Nat
  | .Y4 => 4
  | .M2 => 2
  | .D2 => 2
  | .lit _ => 1
  | _ => 0

def fmtBound (toks : List FTok) : Nat := (toks.map tokBound).sum

/-! ## Claim theorems -/

/-- C2: a transport failure while fetching a pagination page makes the
loop break and return the reviews accumulated from earlier pages as a
normal (partial) result, for any remaining pages; the same failure during
the company-resolution fetch makes `scrape_reviews` raise `ScrapingError`. -/
theorem C2_transport_failure_policy :
    (∀ (start stop : PyDateTime) (rest : List G2Scraper.FetchR) (acc : List Review),
      G2Scraper.paginate start stop (.err :: rest) acc = .normal acc) ∧
    (∀ (start stop : PyDateTime) (pages : List G2Scraper.FetchR),
      G2Scraper.scrape_reviews start stop ⟨.error (), pages⟩ = .scrapingError) := by
  exact ⟨fun _ _ _ _ => rfl, fun _ _ _ => rfl⟩

/-- C6 counterexample: `parse_date("")` and `parse_date(None)` return
`None` from the early type/emptiness test without ever reaching
`logger.warning`, so the claim's "with a logged warning" fails for them. -/
theorem C6_counterexample :
    parse_date_full (some "") = (none, false) ∧ parse_date_full none = (none, false) := by
  exact ⟨rfl, rfl⟩

/-- C6 amended: the empty string, `None` and a relative expression all
yield `None` (the model is total, mirroring that no exception escapes);
the relative expression logs the parse warning, while the empty string
and `None` return silently without logging. -/
theorem C6_parse_date_none_policy :
    parse_date (some "") = none ∧ parse_date none = none ∧
    parse_date_full (some "3 months ago") = (none, true) ∧
    (parse_date_full (some "")).2 = false ∧ (parse_date_full none).2 = false := by
  refine ⟨rfl, rfl, by decide, rfl, rfl⟩

/-- C9: `get_scraper` returns each platform's scraper exactly when the
source string equals that platform's name case-insensitively, and for any
other string it fails with `ValueError`; the factory itself performs no
network activity (it is a pure function of its arguments). -/
theorem C9_get_scraper_dispatch :
    ∀ source : String,
      (get_scraper source = .ok .g2 ↔ pyLower source = "g2") ∧
      (get_scraper source = .ok .capterra ↔ pyLower source = "capterra") ∧
      (get_scraper source = .ok .trustradius ↔ pyLower source = "trustradius") ∧
      (pyLower source ≠ "g2" → pyLower source ≠ "capterra" →
        pyLower source ≠ "trustradius" → ∃ msg, get_scraper source = .error msg) := by
  intro s
  by_cases h1 : pyLower s = "g2" <;>
    by_cases h2 : pyLower s = "capterra" <;>
      by_cases h3 : pyLower s = "trustradius" <;>
        simp_all [get_scraper]

/-- C9 witness: the factory at the concrete strings `"G2"` and `"Yelp"`. -/
theorem C9_get_scraper_dispatch_witness :
    get_scraper "G2" = .ok .g2 ∧ ∃ msg, get_scraper "Yelp" = .error msg := by
  exact ⟨(C9_get_scraper_dispatch "G2").1.mpr (by decide),
         (C9_get_scraper_dispatch "Yelp").2.2.2 (by decide) (by decide) (by decide)⟩

/-- C1 counterexample: window `[2023-01-01, 2023-06-30]`, one page whose
elements are an in-window review (2023-06-15) followed by a before-window
review (2022-12-01).  The in-window record is extracted into
`page_reviews`, the next element triggers `return reviews`, and the run
returns the empty list: the triggering page's in-range entry is *not*
included, contradicting the claim. -/
theorem C1_counterexample :
    G2Scraper._parse_review elemIn = some reviewIn ∧
    parse_date (some reviewIn.review_date) = some ⟨2023, 6, 15, 0, 0, 0, 0, none⟩ ∧
    pyLeOpt winStart ⟨2023, 6, 15, 0, 0, 0, 0, none⟩ = some true ∧
    pyLeOpt ⟨2023, 6, 15, 0, 0, 0, 0, none⟩ winEnd = some true ∧
    G2Scraper.paginate winStart winEnd [.ok [elemIn, elemOld]] [] = .normal [] := by
  decide

/-- C1 amended: when an element's record has a parseable date strictly
earlier than the window start, the element loop returns early; the
pagination loop then returns exactly the records accumulated from
*earlier* pages (the triggering page's in-range entries are discarded);
and a record whose date equals the window start (so `date < start` is
false and `start ≤ date ≤ end` holds) is appended, not treated as
before-window. -/
theorem C1_early_stop_discards_current_page :
    (∀ (start stop : PyDateTime) (e : Element) (es : List Element)
       (acc : List Review) (r : Review) (dt : PyDateTime),
       G2Scraper._parse_review e = some r → r.review_date ≠ "" →
       parse_date (some r.review_date) = some dt → pyLtOpt dt start = some true →
       G2Scraper.scanPage start stop (e :: es) acc = .earlyReturn) ∧
    (∀ (start stop : PyDateTime) (elems : List Element) (rest : List G2Scraper.FetchR)
       (acc : List Review),
       G2Scraper.scanPage start stop elems [] = .earlyReturn →
       G2Scraper.paginate start stop (.ok elems :: rest) acc = .normal acc) ∧
    (∀ (start stop : PyDateTime) (e : Element) (es : List Element)
       (acc : List Review) (r : Review) (dt : PyDateTime),
       G2Scraper._parse_review e = some r → r.review_date ≠ "" →
       parse_date (some r.review_date) = some dt →
       pyLtOpt dt start = some false → pyLeOpt start dt = some true →
       pyLeOpt dt stop = some true →
       G2Scraper.scanPage start stop (e :: es) acc =
         G2Scraper.scanPage start stop es (acc ++ [r])) := by
  refine ⟨?_, ?_, ?_⟩
  · intro start stop e es acc r dt hp hne hd hlt
    simp [G2Scraper.scanPage, hp, hne, hd, hlt]
  · intro start stop elems rest acc h
    match elems with
    | [] => simp [G2Scraper.scanPage] at h
    | e :: es => simp [G2Scraper.paginate, h]
  · intro start stop e es acc r dt hp hne hd hlt hge hle
    simp [G2Scraper.scanPage, hp, hne, hd, hlt, hge, hle]

/-- C1 witness: the early-return and the discard at a concrete page. -/
theorem C1_early_stop_discards_current_page_witness :
    G2Scraper.scanPage winStart winEnd [elemOld] [] = .earlyReturn ∧
    G2Scraper.paginate winStart winEnd [.ok [elemIn, elemOld]] [reviewIn] =
      .normal [reviewIn] := by
  exact ⟨C1_early_stop_discards_current_page.1 winStart winEnd elemOld [] []
           reviewOld ⟨2022, 12, 1, 0, 0, 0, 0, none⟩
           (by decide) (by decide) (by decide) (by decide),
         C1_early_stop_discards_current_page.2.1 winStart winEnd
           [elemIn, elemOld] [] [reviewIn] (by decide)⟩

/-- C5: an element whose extracted record has an empty or unparseable
`review_date` contributes nothing: the element loop continues over the
remaining elements with the accumulator unchanged (so the record is
neither kept nor used to trigger the early stop). -/
theorem C5_unparseable_date_skipped :
    ∀ (start stop : PyDateTime) (e : Element) (es : List Element)
      (acc : List Review) (r : Review),
      G2Scraper._parse_review e = some r →
      (r.review_date = "" ∨ parse_date (some r.review_date) = none) →
      G2Scraper.scanPage start stop (e :: es) acc = G2Scraper.scanPage start stop es acc := by
  intro start stop e es acc r hp hd
  rcases hd with hd | hd
  · simp [G2Scraper.scanPage, hp, hd]
  · by_cases hne : r.review_date = "" <;> simp [G2Scraper.scanPage, hp, hne, hd]

/-- C5 witness: the element dated `"3 months ago"` is skipped. -/
theorem C5_unparseable_date_skipped_witness :
    G2Scraper.scanPage winStart winEnd [elemRel, elemIn] [] =
      G2Scraper.scanPage winStart winEnd [elemIn] [] := by
  exact C5_unparseable_date_skipped winStart winEnd elemRel [elemIn] [] reviewRel
    (by decide) (.inr (by decide))

/-- A record produced by `_parse_review` has a non-empty title or
description. -/
theorem parse_review_nonempty (e : Element) (r : Review) :
    G2Scraper._parse_review e = some r → r.title ≠ "" ∨ r.description ≠ "" := by
  intro h
  simp only [G2Scraper._parse_review] at h
  split at h
  · rename_i hcond
    cases h
    exact hcond
  · cases h

/-- Every review in a `.collected` outcome of the element loop either was
in the initial accumulator or was produced by `_parse_review`. -/
theorem scanPage_collected_invariant (P : Review → Prop)
    (hP : ∀ e r, G2Scraper._parse_review e = some r → P r)
    (start stop : PyDateTime) :
    ∀ (es : List Element) (acc : List Review), (∀ r ∈ acc, P r) →
      ∀ pr, G2Scraper.scanPage start stop es acc = .collected pr → ∀ r ∈ pr, P r := by
  intro es
  induction es with
  | nil =>
    intro acc hacc pr h
    simp only [G2Scraper.scanPage] at h
    cases h
    exact hacc
  | cons e es ih =>
    intro acc hacc pr h
    simp only [G2Scraper.scanPage] at h
    cases hpe : G2Scraper._parse_review e with
    | none =>
      simp only [hpe] at h
      exact ih acc hacc pr h
    | some r =>
      simp only [hpe] at h
      by_cases hne : r.review_date = ""
      · simp only [if_pos hne] at h
        exact ih acc hacc pr h
      · simp only [if_neg hne] at h
        cases hpd : parse_date (some r.review_date) with
        | none =>
          simp only [hpd] at h
          exact ih acc hacc pr h
        | some dt =>
          simp only [hpd] at h
          cases hlt : pyLtOpt dt start with
          | none => simp only [hlt] at h; cases h
          | some b =>
            simp only [hlt] at h
            cases b with
            | true => simp only [] at h; cases h
            | false =>
              simp only [] at h
              cases hge : pyLeOpt start dt with
              | none => simp only [hge] at h; cases h
              | some b2 =>
                simp only [hge] at h
                cases b2 with
                | false =>
                  simp only [] at h
                  exact ih acc hacc pr h
                | true =>
                  simp only [] at h
                  cases hle : pyLeOpt dt stop with
                  | none => simp only [hle] at h; cases h
                  | some b3 =>
                    simp only [hle] at h
                    cases b3 with
                    | false =>
                      simp only [] at h
                      exact ih acc hacc pr h
                    | true =>
                      simp only [] at h
                      refine ih (acc ++ [r]) ?_ pr h
                      intro x hx
                      rcases List.mem_append.mp hx with hx | hx
                      · exact hacc x hx
                      · rcases List.mem_singleton.mp hx with rfl
                        exact hP e x hpe

/-- Every review in a `.normal` outcome of the pagination loop either was
in the initial accumulator or was produced by `_parse_review`. -/
theorem paginate_normal_invariant (P : Review → Prop)
    (hP : ∀ e r, G2Scraper._parse_review e = some r → P r)
    (start stop : PyDateTime) :
    ∀ (pages : List G2Scraper.FetchR) (acc : List Review), (∀ r ∈ acc, P r) →
      ∀ rs, G2Scraper.paginate start stop pages acc = .normal rs → ∀ r ∈ rs, P r := by
  intro pages
  induction pages with
  | nil =>
    intro acc hacc rs h
    cases h
    exact hacc
  | cons f rest ih =>
    intro acc hacc rs h
    simp only [G2Scraper.paginate] at h
    cases f with
    | err =>
      cases h
      exact hacc
    | ok elems =>
      simp only [] at h
      by_cases hemp : elems.isEmpty
      · simp only [if_pos hemp] at h
        cases h
        exact hacc
      · simp only [if_neg hemp] at h
        cases hscan : G2Scraper.scanPage start stop elems [] with
        | earlyReturn =>
          simp only [hscan] at h
          cases h
          exact hacc
        | typeErr => simp only [hscan] at h; cases h
        | collected pr =>
          simp only [hscan] at h
          by_cases hpr : pr.isEmpty
          · simp only [if_pos hpr] at h
            cases h
            exact hacc
          · simp only [if_neg hpr] at h
            refine ih (acc ++ pr) ?_ rs h
            intro x hx
            rcases List.mem_append.mp hx with hx | hx
            · exact hacc x hx
            · exact scanPage_collected_invariant P hP start stop elems []
                (by simp) pr hscan x hx

/-- C4: `_parse_review` materializes a record only when the extracted
title or description is non-empty; an element populating neither yields
`None`; consequently every record in a successful `scrape_reviews` result
has a non-empty title or a non-empty description. -/
theorem C4_record_nonempty_title_or_description :
    (∀ (e : Element) (r : Review),
       G2Scraper._parse_review e = some r → r.title ≠ "" ∨ r.description ≠ "") ∧
    (∀ e : Element, titleOf e = "" → descOf e = "" → G2Scraper._parse_review e = none) ∧
    (∀ (start stop : PyDateTime) (w : G2Scraper.World) (rs : List Review),
       G2Scraper.scrape_reviews start stop w = .ok rs →
       ∀ r ∈ rs, r.title ≠ "" ∨ r.description ≠ "") := by
  refine ⟨parse_review_nonempty, ?_, ?_⟩
  · intro e ht hd
    unfold G2Scraper._parse_review
    simp [ht, hd]
  · intro start stop w rs h r hr
    unfold G2Scraper.scrape_reviews at h
    cases hsc : G2Scraper.search_company w with
    | none => simp only [hsc] at h; cases h
    | some u =>
      simp only [hsc] at h
      cases hpg : G2Scraper.paginate start stop w.pages [] with
      | typeErr => simp only [hpg] at h; cases h
      | normal rs2 =>
        simp only [hpg] at h
        cases h
        exact paginate_normal_invariant _ parse_review_nonempty start stop
          w.pages [] (by simp) rs hpg r hr

/-- C4 witness: a concrete record with a title, and a concrete element
with neither title nor description yielding `None`. -/
theorem C4_record_nonempty_title_or_description_witness :
    (reviewIn.title ≠ "" ∨ reviewIn.description ≠ "") ∧
    G2Scraper._parse_review elemBare = none := by
  exact ⟨C4_record_nonempty_title_or_description.1 elemIn reviewIn (by decide),
         C4_record_nonempty_title_or_description.2.1 elemBare (by decide) (by decide)⟩

/-- A page whose elements are all non-qualifying leaves the element
loop's accumulator untouched and triggers neither stop nor error. -/
theorem scanPage_of_nonQualifying (start stop : PyDateTime) :
    ∀ (es : List Element) (acc : List Review),
      (∀ el ∈ es, nonQualifying start stop el = true) →
      G2Scraper.scanPage start stop es acc = .collected acc := by
  intro es
  induction es with
  | nil => intro acc _; rfl
  | cons e es ih =>
    intro acc hq
    have he : nonQualifying start stop e = true := hq e (by simp)
    have hrest : ∀ el ∈ es, nonQualifying start stop el = true := by
      intro el hel
      exact hq el (by simp [hel])
    simp only [G2Scraper.scanPage]
    unfold nonQualifying at he
    cases hpe : G2Scraper._parse_review e with
    | none => simp only [hpe]; exact ih acc hrest
    | some r =>
      simp only [hpe] at he ⊢
      by_cases hne : r.review_date = ""
      · simp only [if_pos hne]
        exact ih acc hrest
      · simp only [if_neg hne] at he ⊢
        cases hpd : parse_date (some r.review_date) with
        | none => simp only [hpd]; exact ih acc hrest
        | some dt =>
          simp only [hpd] at he ⊢
          cases hlt : pyLtOpt dt start with
          | none => rw [hlt] at he; cases he
          | some b =>
            rw [hlt] at he
            cases b with
            | true => cases he
            | false =>
              simp only []
              cases hge : pyLeOpt start dt with
              | none => rw [hge] at he; cases he
              | some b2 =>
                rw [hge] at he
                cases b2 with
                | false => simp only []; exact ih acc hrest
                | true =>
                  simp only [] at he ⊢
                  by_cases hle : pyLeOpt dt stop = some false
                  · rw [hle]
                    exact ih acc hrest
                  · rw [if_neg hle] at he
                    cases he

/-- C8: a fetched page that does contain review elements but in which
every element is non-qualifying (future-dated, unparseable, or yielding
no record) ends pagination at that page with the previously accumulated
records, without the before-start early exit, and without consulting any
later page. -/
theorem C8_zero_in_window_page_stops :
    ∀ (start stop : PyDateTime) (elems : List Element)
      (rest : List G2Scraper.FetchR) (acc : List Review),
      elems ≠ [] →
      (∀ el ∈ elems, nonQualifying start stop el = true) →
      G2Scraper.scanPage start stop elems [] = .collected [] ∧
      G2Scraper.paginate start stop (.ok elems :: rest) acc = .normal acc := by
  intro start stop elems rest acc hne hq
  have hscan := scanPage_of_nonQualifying start stop elems [] hq
  refine ⟨hscan, ?_⟩
  simp only [G2Scraper.paginate]
  rw [if_neg (by simpa using hne), hscan]
  simp

/-- C8 witness: a page holding only a future-dated element stops the run
even though a later page holds an in-window element. -/
theorem C8_zero_in_window_page_stops_witness :
    G2Scraper.scanPage winStart winEnd [elemFuture] [] = .collected [] ∧
    G2Scraper.paginate winStart winEnd [.ok [elemFuture], .ok [elemIn]] [reviewOld] =
      .normal [reviewOld] := by
  exact C8_zero_in_window_page_stops winStart winEnd [elemFuture] [.ok [elemIn]]
    [reviewOld] (by decide) (by decide)

/-- Evaluating `toDigit` on a rendered digit. -/
theorem toDigit_digitChar (n : Nat) : toDigit (digitChar n) = some (n % 10) := by
  have h : n % 10 = 0 ∨ n % 10 = 1 ∨ n % 10 = 2 ∨ n % 10 = 3 ∨ n % 10 = 4 ∨
      n % 10 = 5 ∨ n % 10 = 6 ∨ n % 10 = 7 ∨ n % 10 = 8 ∨ n % 10 = 9 := by omega
  rcases h with h | h | h | h | h | h | h | h | h | h <;>
    simp only [digitChar, h] <;> decide

/-- A digit character is reproduced by `digitChar` of its value. -/
theorem digitChar_of_toDigit {c : Char} {k : Nat} (h : toDigit c = some k) :
    digitChar k = c ∧ k ≤ 9 := by
  unfold toDigit at h
  split at h
  · rename_i hc
    cases h
    have hk9 : c.toNat - 48 ≤ 9 := by omega
    constructor
    · have hmod : (c.toNat - 48) % 10 = c.toNat - 48 := by omega
      have : 48 + (c.toNat - 48) % 10 = c.toNat := by omega
      rw [digitChar, this]
      exact Char.ofNat_toNat c
    · exact hk9
  · cases h

/-- A rendered digit is not one of the separator characters appearing in
the scraper's date strings, is unchanged by lower-casing, and is not
whitespace. -/
theorem digitChar_props (n : Nat) :
    (digitChar n).toLower = digitChar n ∧ pySpace (digitChar n) = false ∧
    digitChar n ≠ '-' ∧ digitChar n ≠ '/' ∧ digitChar n ≠ ',' ∧
    digitChar n ≠ ':' ∧ digitChar n ≠ '.' ∧ digitChar n ≠ '+' ∧
    digitChar n ≠ 'Z' ∧ digitChar n ≠ 'T' := by
  have h : n % 10 = 0 ∨ n % 10 = 1 ∨ n % 10 = 2 ∨ n % 10 = 3 ∨ n % 10 = 4 ∨
      n % 10 = 5 ∨ n % 10 = 6 ∨ n % 10 = 7 ∨ n % 10 = 8 ∨ n % 10 = 9 := by omega
  rcases h with h | h | h | h | h | h | h | h | h | h <;>
    simp only [digitChar, h] <;> decide

/-- Evaluating `candY4` on a four-digit year rendering. -/
theorem candY4_pad4 {y : Nat} (hy : y ≤ 9999) (rest : List Char) :
    candY4 (pad4 y ++ rest) = [(y, rest)] := by
  simp only [pad4, List.cons_append, List.nil_append, candY4, toDigit_digitChar]
  have : 1000 * (y / 1000 % 10) + 100 * (y / 100 % 10) + 10 * (y / 10 % 10) + y % 10 = y := by
    omega
  rw [this]

/-- Evaluating `candM` on a zero-padded month rendering. -/
theorem candM_pad2 {mo : Nat} (h1 : 1 ≤ mo) (h12 : mo ≤ 12) (rest : List Char) :
    candM (pad2 mo ++ rest) =
      (mo, rest) :: (if 10 ≤ mo then [(1, digitChar mo :: rest)] else []) := by
  simp only [pad2, List.cons_append, List.nil_append, candM, toDigit_digitChar]
  by_cases h10 : 10 ≤ mo
  · have ha : mo / 10 % 10 = 1 := by omega
    have hb : mo % 10 ≤ 2 := by omega
    rw [ha]
    rw [if_pos ⟨rfl, hb⟩, if_pos (by omega : 1 ≤ 1)]
    have : 10 + mo % 10 = mo := by omega
    rw [this, if_pos h10]
    rfl
  · have ha : mo / 10 % 10 = 0 := by omega
    have hb : 1 ≤ mo % 10 := by omega
    rw [ha]
    rw [if_neg (by simp), if_pos ⟨rfl, hb⟩, if_neg (by omega : ¬ 1 ≤ 0)]
    have : mo % 10 = mo := by omega
    rw [this, if_neg h10]
    rfl

/-- Evaluating `candD` on a zero-padded day rendering. -/
theorem candD_pad2 {d : Nat} (h1 : 1 ≤ d) (h31 : d ≤ 31) (rest : List Char) :
    candD (pad2 d ++ rest) =
      (d, rest) :: (if 10 ≤ d then [(d / 10, digitChar d :: rest)] else []) := by
  simp only [pad2, List.cons_append, List.nil_append, candD, toDigit_digitChar]
  have hmod : d / 10 % 10 = d / 10 := by omega
  rw [hmod]
  by_cases h30 : 30 ≤ d
  · have ha : d / 10 = 3 := by omega
    have hb : d % 10 ≤ 1 := by omega
    rw [ha]
    rw [if_pos ⟨rfl, hb⟩, if_pos (by omega : 1 ≤ 3)]
    have : 30 + d % 10 = d := by omega
    rw [this, if_pos (by omega : 10 ≤ d)]
    rfl
  · by_cases h10 : 10 ≤ d
    · have ha : d / 10 = 1 ∨ d / 10 = 2 := by omega
      have hne3 : ¬ (d / 10 = 3 ∧ d % 10 ≤ 1) := by omega
      rw [if_neg hne3, if_pos ha, if_pos (by omega : 1 ≤ d / 10)]
      have : 10 * (d / 10) + d % 10 = d := by omega
      rw [this, if_pos h10]
      rfl
    · have ha : d / 10 = 0 := by omega
      have hb : 1 ≤ d % 10 := by omega
      rw [ha]
      rw [if_neg (by omega : ¬ ((0 : Nat) = 3 ∧ d % 10 ≤ 1)),
          if_neg (by omega : ¬ ((0 : Nat) = 1 ∨ (0 : Nat) = 2)),
          if_pos ⟨rfl, hb⟩, if_neg (by omega : ¬ 1 ≤ 0)]
      have : d % 10 = d := by omega
      rw [this, if_neg h10]
      rfl

/-- `candY4` on a four-digit rendering with nothing following. -/
theorem candY4_pad4_nil {y : Nat} (hy : y ≤ 9999) : candY4 (pad4 y) = [(y, [])] := by
  have h := candY4_pad4 hy []
  simpa using h

/-- `candD` on a zero-padded rendering with nothing following. -/
theorem candD_pad2_nil {d : Nat} (h1 : 1 ≤ d) (h31 : d ≤ 31) :
    candD (pad2 d) = (d, []) :: (if 10 ≤ d then [(d / 10, digitChar d :: [])] else []) := by
  have h := candD_pad2 h1 h31 []
  simpa using h

/-- Lower-casing is the identity on digit renderings. -/
theorem map_toLower_pad2 (n : Nat) : (pad2 n).map Char.toLower = pad2 n := by
  simp [pad2, (digitChar_props _).1]

/-- Lower-casing is the identity on four-digit renderings. -/
theorem map_toLower_pad4 (n : Nat) : (pad4 n).map Char.toLower = pad4 n := by
  simp [pad4, (digitChar_props _).1]

/-- `strptime` with `'%Y-%m-%d'` succeeds on the canonical zero-padded
rendering of a valid date and returns exactly that date. -/
theorem strptime_fmtYmd_canonical {y mo d : Nat}
    (hy : y ≤ 9999) (hmo1 : 1 ≤ mo) (hmo : mo ≤ 12) (hd1 : 1 ≤ d) (hd : d ≤ 31)
    (hv : validDT ⟨y, mo, d, 0, 0, 0, 0, none⟩ = true) :
    strptimeRun fmtYmd (pad4 y ++ '-' :: (pad2 mo ++ '-' :: pad2 d)) =
      some ⟨y, mo, d, 0, 0, 0, 0, none⟩ := by
  have hdash : Char.toLower '-' = '-' := by decide
  have hlow : (pad4 y ++ '-' :: (pad2 mo ++ '-' :: pad2 d)).map Char.toLower
      = pad4 y ++ '-' :: (pad2 mo ++ '-' :: pad2 d) := by
    simp [List.map_append, map_toLower_pad4, map_toLower_pad2, hdash]
  have hm : matchToks fmtYmd (pad4 y ++ '-' :: (pad2 mo ++ '-' :: pad2 d)) {} =
      some ({ y := y, mo := mo, d := d }, []) := by
    simp only [fmtYmd, matchToks, cands, candY4_pad4 hy, List.findSome?_cons,
      List.findSome?_nil, applyTok, ite_true]
    simp only [candM_pad2 hmo1 hmo, List.findSome?_cons, ite_true,
      candD_pad2_nil hd1 hd]
  unfold strptimeRun
  rw [hlow, hm]
  simp only [adjustHour, mkDT]
  rw [if_pos hv]

/-- Rendered digits depend only on the value mod 10. -/
theorem digitChar_congr {n m : Nat} (h : n % 10 = m % 10) : digitChar n = digitChar m := by
  simp [digitChar, h]

theorem daysInMonth_le_31 (y m : Nat) : daysInMonth y m ≤ 31 := by
  unfold daysInMonth
  split
  · omega
  · split
    · omega
    · split
      · split <;> omega
      · omega

theorem specCanonicalYMD_inv {s : String} {ds : PyDateTime}
    (h : specCanonicalYMD s = some ds) :
    ∃ y mo d : Nat, ds = ⟨y, mo, d, 0, 0, 0, 0, none⟩ ∧
      y ≤ 9999 ∧ 1 ≤ mo ∧ mo ≤ 12 ∧ 1 ≤ d ∧ d ≤ 31 ∧
      validDT ds = true ∧
      s.data = pad4 y ++ '-' :: (pad2 mo ++ '-' :: pad2 d) := by
  unfold specCanonicalYMD at h
  split at h
  case _ =>
    rename_i y1 y2 y3 y4 c1 m1 m2 c2 d1 d2 hdata
    split at h
    case _ =>
      rename_i hdash
      split at h
      case _ =>
        rename_i a b c dd e f g hh ha hb hc hdd he hf hg hhh
        dsimp only at h
        split at h
        case _ =>
          rename_i hrange
          cases h
          obtain ⟨hy1, ha9⟩ := digitChar_of_toDigit ha
          obtain ⟨hy2, hb9⟩ := digitChar_of_toDigit hb
          obtain ⟨hy3, hc9⟩ := digitChar_of_toDigit hc
          obtain ⟨hy4, hdd9⟩ := digitChar_of_toDigit hdd
          obtain ⟨hm1, he9⟩ := digitChar_of_toDigit he
          obtain ⟨hm2, hf9⟩ := digitChar_of_toDigit hf
          obtain ⟨hd1c, hg9⟩ := digitChar_of_toDigit hg
          obtain ⟨hd2c, hhh9⟩ := digitChar_of_toDigit hhh
          obtain ⟨hr1, hr2, hr3, hr4, hr5⟩ := hrange
          refine ⟨1000 * a + 100 * b + 10 * c + dd, 10 * e + f, 10 * g + hh,
            rfl, by omega, hr2, hr3, hr4,
            le_trans hr5 (daysInMonth_le_31 _ _), ?_, ?_⟩
          · simp only [validDT, Bool.and_eq_true, decide_eq_true_eq]
            repeat' apply And.intro
            all_goals first | assumption | omega | trivial
          · rw [hdata]
            obtain ⟨hc1, hc2⟩ := hdash
            subst hc1 hc2
            simp only [pad4, pad2, List.cons_append, List.nil_append]
            have e1 : digitChar ((1000 * a + 100 * b + 10 * c + dd) / 1000) = y1 := by
              rw [digitChar_congr (show (1000 * a + 100 * b + 10 * c + dd) / 1000 % 10 = a % 10 by omega)]
              exact hy1
            have e2 : digitChar ((1000 * a + 100 * b + 10 * c + dd) / 100) = y2 := by
              rw [digitChar_congr (show (1000 * a + 100 * b + 10 * c + dd) / 100 % 10 = b % 10 by omega)]
              exact hy2
            have e3 : digitChar ((1000 * a + 100 * b + 10 * c + dd) / 10) = y3 := by
              rw [digitChar_congr (show (1000 * a + 100 * b + 10 * c + dd) / 10 % 10 = c % 10 by omega)]
              exact hy3
            have e4 : digitChar (1000 * a + 100 * b + 10 * c + dd) = y4 := by
              rw [digitChar_congr (show (1000 * a + 100 * b + 10 * c + dd) % 10 = dd % 10 by omega)]
              exact hy4
            have e5 : digitChar ((10 * e + f) / 10) = m1 := by
              rw [digitChar_congr (show (10 * e + f) / 10 % 10 = e % 10 by omega)]
              exact hm1
            have e6 : digitChar (10 * e + f) = m2 := by
              rw [digitChar_congr (show (10 * e + f) % 10 = f % 10 by omega)]
              exact hm2
            have e7 : digitChar ((10 * g + hh) / 10) = d1 := by
              rw [digitChar_congr (show (10 * g + hh) / 10 % 10 = g % 10 by omega)]
              exact hd1c
            have e8 : digitChar (10 * g + hh) = d2 := by
              rw [digitChar_congr (show (10 * g + hh) % 10 = hh % 10 by omega)]
              exact hd2c
            rw [e1, e2, e3, e4, e5, e6, e7, e8]
        case _ => cases h
      case _ => cases h
    case _ => cases h
  case _ => cases h

/-- C3 counterexample: `"2023-1-1"` is not a canonical `YYYY-MM-DD`
string (the spec's "strictly in `YYYY-MM-DD`"), yet `validate_dates`
accepts it, because `strptime`'s `%m`/`%d` also match unpadded one-digit
fields; so "not a valid YYYY-MM-DD date ⟹ validation error" fails. -/
theorem C3_counterexample :
    specCanonicalYMD "2023-1-1" = none ∧
    validate_dates "2023-1-1" "2023-01-02" =
      .ok (⟨2023, 1, 1, 0, 0, 0, 0, none⟩, ⟨2023, 1, 2, 0, 0, 0, 0, none⟩) := by
  exact ⟨rfl, by decide⟩

/-- C3 amended: for canonical `YYYY-MM-DD` strings, `validate_dates`
returns the two parsed instants when start ≤ end and errors when
start > end; and whenever either input fails the code's `%Y-%m-%d` parse
(which also tolerates unpadded one- or two-digit month/day fields, so
this is weaker than "not canonical") it raises the format error. -/
theorem C3_validate_dates_amended :
    ∀ sd ed : String,
      (∀ ds de, specCanonicalYMD sd = some ds → specCanonicalYMD ed = some de →
        (cmp7 ds de ≠ .gt → validate_dates sd ed = .ok (ds, de)) ∧
        (cmp7 ds de = .gt → validate_dates sd ed =
          .error "start_date must be less than or equal to end_date")) ∧
      ((strptimeRun fmtYmd sd.data = none ∨ strptimeRun fmtYmd ed.data = none) →
        validate_dates sd ed = .error "Invalid date format. Use YYYY-MM-DD format.") := by
  intro sd ed
  constructor
  · intro ds de hs he
    obtain ⟨y, mo, d, rfl, hy, hmo1, hmo, hd1, hd, hv, hdata⟩ := specCanonicalYMD_inv hs
    obtain ⟨y2, mo2, d2, rfl, hy', hmo1', hmo', hd1', hd', hv', hdata'⟩ :=
      specCanonicalYMD_inv he
    have h1 : strptimeRun fmtYmd sd.data = some ⟨y, mo, d, 0, 0, 0, 0, none⟩ := by
      rw [hdata]
      exact strptime_fmtYmd_canonical hy hmo1 hmo hd1 hd hv
    have h2 : strptimeRun fmtYmd ed.data = some ⟨y2, mo2, d2, 0, 0, 0, 0, none⟩ := by
      rw [hdata']
      exact strptime_fmtYmd_canonical hy' hmo1' hmo' hd1' hd' hv'
    unfold validate_dates
    rw [h1, h2]
    constructor
    · intro hle
      simp only [if_neg (by simpa using hle)]
    · intro hgt
      simp only [if_pos hgt]
  · intro hor
    unfold validate_dates
    rcases hor with h | h
    · cases h2 : strptimeRun fmtYmd ed.data <;> rw [h]
    · cases h1 : strptimeRun fmtYmd sd.data <;> rw [h]

/-- C3 witness: the three behaviors at concrete canonical inputs. -/
theorem C3_validate_dates_amended_witness :
    validate_dates "2023-01-05" "2023-03-02" =
      .ok (⟨2023, 1, 5, 0, 0, 0, 0, none⟩, ⟨2023, 3, 2, 0, 0, 0, 0, none⟩) ∧
    validate_dates "2023-03-02" "2023-01-05" =
      .error "start_date must be less than or equal to end_date" ∧
    validate_dates "2023-13-01" "2023-01-05" =
      .error "Invalid date format. Use YYYY-MM-DD format." := by
  refine ⟨?_, ?_, ?_⟩
  · exact ((C3_validate_dates_amended "2023-01-05" "2023-03-02").1
      ⟨2023, 1, 5, 0, 0, 0, 0, none⟩ ⟨2023, 3, 2, 0, 0, 0, 0, none⟩
      (by decide) (by decide)).1 (by decide)
  · exact ((C3_validate_dates_amended "2023-03-02" "2023-01-05").1
      ⟨2023, 3, 2, 0, 0, 0, 0, none⟩ ⟨2023, 1, 5, 0, 0, 0, 0, none⟩
      (by decide) (by decide)).2 (by decide)
  · exact (C3_validate_dates_amended "2023-13-01" "2023-01-05").2
      (.inl (by decide))

/-- Membership in a conditional singleton list. -/
theorem mem_ite_singleton {α : Type} {c : Prop} [Decidable c] {x p : α}
    (h : p ∈ (if c then [x] else [])) : p = x := by
  split at h
  · simpa using h
  · cases h

theorem candTwo_drop {cs : List Char} {p : Nat × List Char}
    {c1 c2 : Char} {rest : List Char} (hcs : cs = c1 :: c2 :: rest)
    (h2 : p.2 = rest ∨ p.2 = c2 :: rest) : ∃ k, p.2 = cs.drop k := by
  rcases h2 with h | h
  · exact ⟨2, by rw [hcs, h]; rfl⟩
  · exact ⟨1, by rw [hcs, h]; rfl⟩

theorem candM_drop (cs : List Char) (p : Nat × List Char) (hp : p ∈ candM cs) :
    ∃ k, p.2 = cs.drop k := by
  unfold candM at hp
  split at hp
  · rename_i c1 c2 rest
    split at hp
    · rcases List.mem_append.mp hp with h | h
      · refine candTwo_drop rfl (.inl ?_)
        split at h
        · simp only [List.mem_singleton] at h; rw [h]
        · split at h
          · simp only [List.mem_singleton] at h; rw [h]
          · cases h
      · refine candTwo_drop rfl (.inr ?_)
        split at h
        · simp only [List.mem_singleton] at h; rw [h]
        · cases h
    · split at hp
      · refine candTwo_drop rfl (.inr ?_)
        simp only [List.mem_singleton] at hp; rw [hp]
      · cases hp
    · cases hp
  · rename_i c1
    split at hp
    · split at hp
      · simp only [List.mem_singleton] at hp
        exact ⟨1, by rw [hp]; rfl⟩
      · cases hp
    · cases hp
  · cases hp

theorem candD_drop (cs : List Char) (p : Nat × List Char) (hp : p ∈ candD cs) :
    ∃ k, p.2 = cs.drop k := by
  unfold candD at hp
  split at hp
  · rename_i c1 c2 rest
    split at hp
    · rcases List.mem_append.mp hp with h | h
      · refine candTwo_drop rfl (.inl ?_)
        split at h
        · simp only [List.mem_singleton] at h; rw [h]
        · split at h
          · simp only [List.mem_singleton] at h; rw [h]
          · split at h
            · simp only [List.mem_singleton] at h; rw [h]
            · cases h
      · refine candTwo_drop rfl (.inr ?_)
        split at h
        · simp only [List.mem_singleton] at h; rw [h]
        · cases h
    · split at hp
      · refine candTwo_drop rfl (.inr ?_)
        simp only [List.mem_singleton] at hp; rw [hp]
      · cases hp
    · cases hp
  · rename_i c1
    split at hp
    · split at hp
      · simp only [List.mem_singleton] at hp
        exact ⟨1, by rw [hp]; rfl⟩
      · cases hp
    · cases hp
  · cases hp

theorem candH_drop (cs : List Char) (p : Nat × List Char) (hp : p ∈ candH cs) :
    ∃ k, p.2 = cs.drop k := by
  unfold candH at hp
  split at hp
  · rename_i c1 c2 rest
    split at hp
    · rcases List.mem_append.mp hp with h | h
      · refine candTwo_drop rfl (.inl ?_)
        split at h
        · simp only [List.mem_singleton] at h; rw [h]
        · split at h
          · simp only [List.mem_singleton] at h; rw [h]
          · cases h
      · simp only [List.mem_singleton] at h
        exact candTwo_drop rfl (.inr (by rw [h]))
    · simp only [List.mem_singleton] at hp
      exact candTwo_drop rfl (.inr (by rw [hp]))
    · cases hp
  · rename_i c1
    split at hp
    · simp only [List.mem_singleton] at hp
      exact ⟨1, by rw [hp]; rfl⟩
    · cases hp
  · cases hp

theorem candMin_drop (cs : List Char) (p : Nat × List Char) (hp : p ∈ candMin cs) :
    ∃ k, p.2 = cs.drop k := by
  unfold candMin at hp
  split at hp
  · rename_i c1 c2 rest
    split at hp
    · rcases List.mem_append.mp hp with h | h
      · refine candTwo_drop rfl (.inl ?_)
        split at h
        · simp only [List.mem_singleton] at h; rw [h]
        · cases h
      · simp only [List.mem_singleton] at h
        exact candTwo_drop rfl (.inr (by rw [h]))
    · simp only [List.mem_singleton] at hp
      exact candTwo_drop rfl (.inr (by rw [hp]))
    · cases hp
  · rename_i c1
    split at hp
    · simp only [List.mem_singleton] at hp
      exact ⟨1, by rw [hp]; rfl⟩
    · cases hp
  · cases hp

theorem candSec_drop (cs : List Char) (p : Nat × List Char) (hp : p ∈ candSec cs) :
    ∃ k, p.2 = cs.drop k := by
  unfold candSec at hp
  split at hp
  · rename_i c1 c2 rest
    split at hp
    · rcases List.mem_append.mp hp with h | h
      · refine candTwo_drop rfl (.inl ?_)
        split at h
        · simp only [List.mem_singleton] at h; rw [h]
        · split at h
          · simp only [List.mem_singleton] at h; rw [h]
          · cases h
      · simp only [List.mem_singleton] at h
        exact candTwo_drop rfl (.inr (by rw [h]))
    · simp only [List.mem_singleton] at hp
      exact candTwo_drop rfl (.inr (by rw [hp]))
    · cases hp
  · rename_i c1
    split at hp
    · simp only [List.mem_singleton] at hp
      exact ⟨1, by rw [hp]; rfl⟩
    · cases hp
  · cases hp

theorem candY4_drop (cs : List Char) (p : Nat × List Char) (hp : p ∈ candY4 cs) :
    ∃ k, p.2 = cs.drop k := by
  unfold candY4 at hp
  split at hp
  · split at hp
    · simp only [List.mem_singleton] at hp
      exact ⟨4, by rw [hp]; rfl⟩
    · cases hp
  · cases hp

theorem candAmPm_drop (cs : List Char) (p : Nat × List Char) (hp : p ∈ candAmPm cs) :
    ∃ k, p.2 = cs.drop k := by
  unfold candAmPm at hp
  rcases List.mem_append.mp hp with h | h <;>
    exact ⟨2, by rw [mem_ite_singleton h]⟩

theorem candMonthName_drop (names : List (List Char × Nat)) (cs : List Char)
    (p : Nat × List Char) (hp : p ∈ candMonthName names cs) :
    ∃ k, p.2 = cs.drop k := by
  unfold candMonthName at hp
  rcases List.mem_filterMap.mp hp with ⟨a, _, heq⟩
  split at heq
  · cases heq
    exact ⟨a.1.length, rfl⟩
  · cases heq

theorem candSpace_drop (cs : List Char) (p : Nat × List Char) (hp : p ∈ candSpace cs) :
    ∃ k, p.2 = cs.drop k := by
  unfold candSpace at hp
  rcases List.mem_map.mp hp with ⟨i, _, heq⟩
  exact ⟨spaceRun cs - i, by rw [← heq]⟩

theorem cands_drop (t : FTok) (cs : List Char) (p : Nat × List Char)
    (hp : p ∈ cands t cs) : ∃ k, p.2 = cs.drop k := by
  cases t <;> simp only [cands] at hp
  case Y4 => exact candY4_drop cs p hp
  case M2 => exact candM_drop cs p hp
  case D2 => exact candD_drop cs p hp
  case H24 => exact candH_drop cs p hp
  case Min => exact candMin_drop cs p hp
  case Sec => exact candSec_drop cs p hp
  case I12 => exact candM_drop cs p hp
  case AmPm => exact candAmPm_drop cs p hp
  case MonthFull => exact candMonthName_drop _ cs p hp
  case MonthAbbr => exact candMonthName_drop _ cs p hp
  case lit c =>
    split at hp
    · rename_i c1 rest
      split at hp
      · simp only [List.mem_singleton] at hp
        exact ⟨1, by rw [hp]; rfl⟩
      · cases hp
    · cases hp
  case space => exact candSpace_drop cs p hp


/-- Per-directive length accounting for the backtracking matcher. -/
theorem candM_len (cs : List Char) (p : Nat × List Char) (hp : p ∈ candM cs) :
    cs.length ≤ 2 + p.2.length := by
  unfold candM at hp
  split at hp
  · rename_i c1 c2 rest
    split at hp
    · rcases List.mem_append.mp hp with h | h
      · have h2 : p.2 = rest := by
          split at h
          · simp only [List.mem_singleton] at h; rw [h]
          · split at h
            · simp only [List.mem_singleton] at h; rw [h]
            · cases h
        simp [h2]
        omega
      · have h2 : p.2 = c2 :: rest := by
          split at h
          · simp only [List.mem_singleton] at h; rw [h]
          · cases h
        simp [h2]
        omega
    · split at hp
      · have h2 : p.2 = c2 :: rest := by
          simp only [List.mem_singleton] at hp; rw [hp]
        simp [h2]
        omega
      · cases hp
    · cases hp
  · rename_i c1
    split at hp
    · split at hp
      · have h2 : p.2 = [] := by
          simp only [List.mem_singleton] at hp; rw [hp]
        simp [h2]
      · cases hp
    · cases hp
  · cases hp

theorem candD_len (cs : List Char) (p : Nat × List Char) (hp : p ∈ candD cs) :
    cs.length ≤ 2 + p.2.length := by
  unfold candD at hp
  split at hp
  · rename_i c1 c2 rest
    split at hp
    · rcases List.mem_append.mp hp with h | h
      · have h2 : p.2 = rest := by
          split at h
          · simp only [List.mem_singleton] at h; rw [h]
          · split at h
            · simp only [List.mem_singleton] at h; rw [h]
            · split at h
              · simp only [List.mem_singleton] at h; rw [h]
              · cases h
        simp [h2]
        omega
      · have h2 : p.2 = c2 :: rest := by
          split at h
          · simp only [List.mem_singleton] at h; rw [h]
          · cases h
        simp [h2]
        omega
    · split at hp
      · have h2 : p.2 = c2 :: rest := by
          simp only [List.mem_singleton] at hp; rw [hp]
        simp [h2]
        omega
      · cases hp
    · cases hp
  · rename_i c1
    split at hp
    · split at hp
      · have h2 : p.2 = [] := by
          simp only [List.mem_singleton] at hp; rw [hp]
        simp [h2]
      · cases hp
    · cases hp
  · cases hp

theorem candY4_len (cs : List Char) (p : Nat × List Char) (hp : p ∈ candY4 cs) :
    cs.length ≤ 4 + p.2.length := by
  unfold candY4 at hp
  split at hp
  · split at hp
    · simp only [List.mem_singleton] at hp
      subst hp
      simp
      omega
    · cases hp
  · cases hp

theorem cands_len_simple (t : FTok) (cs : List Char) (p : Nat × List Char)
    (hp : p ∈ cands t cs)
    (hs : t = FTok.Y4 ∨ t = FTok.M2 ∨ t = FTok.D2 ∨ ∃ c, t = FTok.lit c) :
    cs.length ≤ tokBound t + p.2.length := by
  rcases hs with rfl | rfl | rfl | ⟨c, rfl⟩
  · exact candY4_len cs p hp
  · exact candM_len cs p hp
  · exact candD_len cs p hp
  · simp only [cands] at hp
    split at hp
    · rename_i c1 rest
      split at hp
      · have h2 : p.2 = rest := by
          simp only [List.mem_singleton] at hp; rw [hp]
        simp [tokBound, h2]
        omega
      · cases hp
    · cases hp

theorem matchToks_len : ∀ (toks : List FTok),
    (∀ t ∈ toks, t = FTok.Y4 ∨ t = FTok.M2 ∨ t = FTok.D2 ∨ ∃ c, t = FTok.lit c) →
    ∀ (cs : List Char) (acc : StAcc) (out : StAcc × List Char),
      matchToks toks cs acc = some out → cs.length ≤ fmtBound toks + out.2.length := by
  intro toks
  induction toks with
  | nil =>
    intro _ cs acc out h
    cases h
    simp [fmtBound]
  | cons t ts ih =>
    intro hsimple cs acc out h
    simp only [matchToks] at h
    obtain ⟨p, hpmem, hpeq⟩ := List.exists_of_findSome?_eq_some h
    have h1 := cands_len_simple t cs p hpmem (hsimple t (by simp))
    have h2 := ih (fun u hu => hsimple u (by simp [hu])) p.2 _ out hpeq
    simp only [fmtBound, List.map_cons, List.sum_cons] at h2 ⊢
    omega

theorem matchToks_lit_mem : ∀ (toks : List FTok) (cs : List Char) (acc : StAcc)
    (out : StAcc × List Char) (ch : Char),
    matchToks toks cs acc = some out → FTok.lit ch ∈ toks → ch ∈ cs := by
  intro toks
  induction toks with
  | nil =>
    intro cs acc out ch _ hmem
    cases hmem
  | cons t ts ih =>
    intro cs acc out ch h hmem
    simp only [matchToks] at h
    obtain ⟨p, hpmem, hpeq⟩ := List.exists_of_findSome?_eq_some h
    rcases List.mem_cons.mp hmem with heq | hmem'
    · subst heq
      simp only [cands] at hpmem
      split at hpmem
      · rename_i c1 rest
        split at hpmem
        · rename_i hc
          simp [hc]
        · cases hpmem
      · cases hpmem
    · have hmem2 := ih p.2 _ out ch hpeq hmem'
      obtain ⟨k, hk⟩ := cands_drop t cs p hpmem
      rw [hk] at hmem2
      exact List.mem_of_mem_drop hmem2

theorem matchToks_space_mem : ∀ (toks : List FTok) (cs : List Char) (acc : StAcc)
    (out : StAcc × List Char),
    matchToks toks cs acc = some out → FTok.space ∈ toks →
    ∃ c ∈ cs, pySpace c = true := by
  intro toks
  induction toks with
  | nil =>
    intro cs acc out _ hmem
    cases hmem
  | cons t ts ih =>
    intro cs acc out h hmem
    simp only [matchToks] at h
    obtain ⟨p, hpmem, hpeq⟩ := List.exists_of_findSome?_eq_some h
    rcases List.mem_cons.mp hmem with heq | hmem'
    · subst heq
      simp only [cands] at hpmem
      unfold candSpace at hpmem
      rcases List.mem_map.mp hpmem with ⟨i, hi, _⟩
      have hrun : 1 ≤ spaceRun cs := by
        rcases List.mem_range.mp hi with hi'
        omega
      cases cs with
      | nil => simp [spaceRun] at hrun
      | cons c cs' =>
        unfold spaceRun at hrun
        by_cases hc : pySpace c
        · exact ⟨c, by simp, hc⟩
        · rw [if_neg hc] at hrun
          omega
    · obtain ⟨c, hcmem, hcsp⟩ := ih p.2 _ out hpeq hmem'
      obtain ⟨k, hk⟩ := cands_drop t cs p hpmem
      rw [hk] at hcmem
      exact ⟨c, List.mem_of_mem_drop hcmem, hcsp⟩

/-- Every month has at least 28 days. -/
theorem daysInMonth_ge_28 {y m : Nat} (h1 : 1 ≤ m) (h12 : m ≤ 12) :
    28 ≤ daysInMonth y m := by
  unfold daysInMonth
  split
  · omega
  · split
    · omega
    · split
      · split <;> omega
      · rename_i hA hB hC
        exact absurd (by omega : m = 1 ∨ m = 3 ∨ m = 5 ∨ m = 7 ∨ m = 8 ∨ m = 10 ∨
          m = 12 ∨ m = 4 ∨ m = 6 ∨ m = 9 ∨ m = 11 ∨ m = 2) (by tauto)

/-- Characters of a one- or two-digit numeral are rendered digits. -/
theorem mem_natChars {c : Char} {n : Nat} (h : c ∈ natChars n) : ∃ m, c = digitChar m := by
  unfold natChars at h
  split at h
  · rw [List.mem_singleton] at h
    exact ⟨n, h⟩
  · rcases List.mem_cons.mp h with h | h
    · exact ⟨n / 10, h⟩
    · rw [List.mem_singleton] at h
      exact ⟨n, h⟩

/-- Characters of a `pad2` rendering are rendered digits. -/
theorem mem_pad2 {c : Char} {n : Nat} (h : c ∈ pad2 n) : ∃ m, c = digitChar m := by
  simp [pad2] at h
  rcases h with h | h <;> exact ⟨_, h⟩

/-- Characters of a `pad4` rendering are rendered digits. -/
theorem mem_pad4 {c : Char} {n : Nat} (h : c ∈ pad4 n) : ∃ m, c = digitChar m := by
  simp [pad4] at h
  rcases h with h | h | h | h <;> exact ⟨_, h⟩

/-- Characters of a `pad6` rendering are rendered digits. -/
theorem mem_pad6 {c : Char} {n : Nat} (h : c ∈ pad6 n) : ∃ m, c = digitChar m := by
  simp [pad6] at h
  rcases h with h | h | h | h | h | h <;> exact ⟨_, h⟩

/-- A format containing literal whitespace cannot match an input without
whitespace. -/
theorem strptimeRun_none_of_space {toks : List FTok} (hsp : FTok.space ∈ toks)
    {cs : List Char} (hcs : ∀ c ∈ cs.map Char.toLower, pySpace c = false) :
    strptimeRun toks cs = none := by
  unfold strptimeRun
  cases hm : matchToks toks (cs.map Char.toLower) {} with
  | none => rfl
  | some out =>
    obtain ⟨c, hcmem, hcsp⟩ := matchToks_space_mem _ _ _ _ hm hsp
    rw [hcs c hcmem] at hcsp
    cases hcsp

/-- A format containing a literal character cannot match an input not
containing that character. -/
theorem strptimeRun_none_of_lit {toks : List FTok} {ch : Char}
    (hlit : FTok.lit ch ∈ toks) {cs : List Char}
    (hcs : ch ∉ cs.map Char.toLower) : strptimeRun toks cs = none := by
  unfold strptimeRun
  cases hm : matchToks toks (cs.map Char.toLower) {} with
  | none => rfl
  | some out =>
    exact absurd (matchToks_lit_mem _ _ _ _ ch hm hlit) hcs

/-- A whitespace-free numeric format leaves unconverted data on any
longer input, so `strptime` fails. -/
theorem strptimeRun_none_of_long {toks : List FTok}
    (hsimple : ∀ t ∈ toks, t = FTok.Y4 ∨ t = FTok.M2 ∨ t = FTok.D2 ∨ ∃ c, t = FTok.lit c)
    {cs : List Char} (hlen : fmtBound toks < cs.length) :
    strptimeRun toks cs = none := by
  unfold strptimeRun
  cases hm : matchToks toks (cs.map Char.toLower) {} with
  | none => rfl
  | some out =>
    have hb := matchToks_len toks hsimple _ _ _ hm
    rw [List.length_map] at hb
    obtain ⟨acc, rest⟩ := out
    cases rest with
    | nil => simp at hb; omega
    | cons c rest' => rfl

/-- Candidate evaluation on unpadded slash-date numerals. -/
theorem candM_natChars_small {a : Nat} (h1 : 1 ≤ a) (h12 : a ≤ 12) (tail : List Char) :
    candM (natChars a ++ '/' :: tail) =
      (a, '/' :: tail) :: (if 10 ≤ a then [(1, digitChar a :: '/' :: tail)] else []) := by
  unfold natChars
  by_cases h10 : a < 10
  · rw [if_pos h10]
    have hsl : toDigit '/' = none := by decide
    simp only [List.cons_append, List.nil_append, candM, toDigit_digitChar, hsl]
    have ha : a % 10 = a := by omega
    rw [ha, if_pos h1, if_neg (by omega : ¬ 10 ≤ a)]
  · rw [if_neg h10]
    simp only [List.cons_append, List.nil_append, candM, toDigit_digitChar]
    have ha : a / 10 % 10 = 1 := by omega
    rw [ha, if_pos ⟨rfl, by omega⟩, if_pos (le_refl 1)]
    have hb : 10 + a % 10 = a := by omega
    rw [hb, if_pos (by omega : 10 ≤ a)]
    rfl

theorem candM_natChars_big {a : Nat} (h13 : 13 ≤ a) (h31 : a ≤ 31) (tail : List Char) :
    candM (natChars a ++ '/' :: tail) = [(a / 10, digitChar a :: '/' :: tail)] := by
  unfold natChars
  rw [if_neg (by omega : ¬ a < 10)]
  simp only [List.cons_append, List.nil_append, candM, toDigit_digitChar]
  have ha : a / 10 % 10 = a / 10 := by omega
  rw [ha, if_neg (by omega : ¬ (a / 10 = 1 ∧ a % 10 ≤ 2)),
      if_neg (by omega : ¬ (a / 10 = 0 ∧ 1 ≤ a % 10)),
      if_pos (by omega : 1 ≤ a / 10)]
  rfl

theorem candD_natChars {b : Nat} (h1 : 1 ≤ b) (h31 : b ≤ 31) (tail : List Char) :
    candD (natChars b ++ '/' :: tail) =
      (b, '/' :: tail) :: (if 10 ≤ b then [(b / 10, digitChar b :: '/' :: tail)] else []) := by
  unfold natChars
  by_cases h10 : b < 10
  · rw [if_pos h10]
    have hsl : toDigit '/' = none := by decide
    simp only [List.cons_append, List.nil_append, candD, toDigit_digitChar, hsl]
    have hb : b % 10 = b := by omega
    rw [hb, if_pos h1, if_neg (by omega : ¬ 10 ≤ b)]
  · rw [if_neg h10]
    simp only [List.cons_append, List.nil_append, candD, toDigit_digitChar]
    have hmod : b / 10 % 10 = b / 10 := by omega
    rw [hmod]
    by_cases h30 : 30 ≤ b
    · rw [if_pos (⟨by omega, by omega⟩ : b / 10 = 3 ∧ b % 10 ≤ 1),
          if_pos (by omega : 1 ≤ b / 10)]
      have hb30 : 30 + b % 10 = b := by omega
      rw [hb30, if_pos (by omega : 10 ≤ b)]
      have h3 : b / 10 = 3 := by omega
      rw [h3]
      rfl
    · rw [if_neg (by omega : ¬ (b / 10 = 3 ∧ b % 10 ≤ 1)),
          if_pos (by omega : b / 10 = 1 ∨ b / 10 = 2),
          if_pos (by omega : 1 ≤ b / 10)]
      have hb10 : 10 * (b / 10) + b % 10 = b := by omega
      rw [hb10, if_pos (by omega : 10 ≤ b)]
      rfl

theorem map_toLower_natChars (n : Nat) : (natChars n).map Char.toLower = natChars n := by
  unfold natChars
  split <;> simp [(digitChar_props _).1]

theorem map_toLower_slash {a b y : Nat} :
    (natChars a ++ '/' :: (natChars b ++ '/' :: pad4 y)).map Char.toLower =
      natChars a ++ '/' :: (natChars b ++ '/' :: pad4 y) := by
  have hsl : Char.toLower '/' = '/' := by decide
  simp [List.map_append, map_toLower_natChars, map_toLower_pad4, hsl]

theorem mem_slashChars {c : Char} {a b y : Nat}
    (h : c ∈ natChars a ++ '/' :: (natChars b ++ '/' :: pad4 y)) :
    c = '/' ∨ ∃ m, c = digitChar m := by
  rcases List.mem_append.mp h with h | h
  · exact .inr (mem_natChars h)
  · rcases List.mem_cons.mp h with h | h
    · exact .inl h
    · rcases List.mem_append.mp h with h | h
      · exact .inr (mem_natChars h)
      · rcases List.mem_cons.mp h with h | h
        · exact .inl h
        · exact .inr (mem_pad4 h)

theorem dropWhile_eq_self_of {l : List Char} (h : ∀ c ∈ l, pySpace c = false) :
    l.dropWhile pySpace = l := by
  cases l with
  | nil => rfl
  | cons c cs =>
    rw [List.dropWhile_cons, h c (by simp)]
    simp

theorem pyStrip_eq_self {l : List Char} (h : ∀ c ∈ l, pySpace c = false) :
    pyStrip l = l := by
  unfold pyStrip
  rw [dropWhile_eq_self_of h,
      dropWhile_eq_self_of (fun c hc => h c (List.mem_reverse.mp hc)),
      List.reverse_reverse]

theorem strptime_slash_small {a b y : Nat} (ha1 : 1 ≤ a) (ha : a ≤ 12)
    (hb1 : 1 ≤ b) (hb : b ≤ 12) (hy1 : 1 ≤ y) (hy : y ≤ 9999) :
    strptimeRun [FTok.M2, .lit '/', .D2, .lit '/', .Y4]
      (natChars a ++ '/' :: (natChars b ++ '/' :: pad4 y)) =
      some ⟨y, a, b, 0, 0, 0, 0, none⟩ := by
  unfold strptimeRun
  rw [map_toLower_slash]
  have hm : matchToks [FTok.M2, .lit '/', .D2, .lit '/', .Y4]
      (natChars a ++ '/' :: (natChars b ++ '/' :: pad4 y)) {} =
      some ({ y := y, mo := a, d := b }, []) := by
    simp only [matchToks, cands, List.findSome?_cons, List.findSome?_nil, applyTok,
      candM_natChars_small ha1 ha, candD_natChars hb1 (show b ≤ 31 by omega),
      candY4_pad4_nil hy, ite_true]
  rw [hm]
  simp only [adjustHour, mkDT]
  rw [if_pos ?hv]
  case hv =>
    simp only [validDT, Bool.and_eq_true, decide_eq_true_eq]
    repeat' apply And.intro
    all_goals first
      | omega
      | exact le_trans (by omega) (daysInMonth_ge_28 ha1 ha)
      | trivial

theorem strptime_fmt7_big_none {a b y : Nat} (h13 : 13 ≤ a) (h31 : a ≤ 31) :
    strptimeRun [FTok.M2, .lit '/', .D2, .lit '/', .Y4]
      (natChars a ++ '/' :: (natChars b ++ '/' :: pad4 y)) = none := by
  unfold strptimeRun
  rw [map_toLower_slash]
  have hne : (digitChar a = '/') = False := by
    simp [(digitChar_props a).2.2.2.1]
  have hm : matchToks [FTok.M2, .lit '/', .D2, .lit '/', .Y4]
      (natChars a ++ '/' :: (natChars b ++ '/' :: pad4 y)) {} = none := by
    simp only [matchToks, cands, List.findSome?_cons, List.findSome?_nil, applyTok,
      candM_natChars_big h13 h31, hne, ite_false]
  rw [hm]

theorem strptime_slash_big {a b y : Nat} (h13 : 13 ≤ a) (h31 : a ≤ 31)
    (hb1 : 1 ≤ b) (hb : b ≤ 12) (hy1 : 1 ≤ y) (hy : y ≤ 9999)
    (hdm : a ≤ daysInMonth y b) :
    strptimeRun [FTok.D2, .lit '/', .M2, .lit '/', .Y4]
      (natChars a ++ '/' :: (natChars b ++ '/' :: pad4 y)) =
      some ⟨y, b, a, 0, 0, 0, 0, none⟩ := by
  unfold strptimeRun
  rw [map_toLower_slash]
  have hm : matchToks [FTok.D2, .lit '/', .M2, .lit '/', .Y4]
      (natChars a ++ '/' :: (natChars b ++ '/' :: pad4 y)) {} =
      some ({ y := y, mo := b, d := a }, []) := by
    simp only [matchToks, cands, List.findSome?_cons, List.findSome?_nil, applyTok,
      candD_natChars (show 1 ≤ a by omega) h31, candM_natChars_small hb1 hb,
      candY4_pad4_nil hy, ite_true]
  rw [hm]
  simp only [adjustHour, mkDT]
  rw [if_pos ?hv]
  case hv =>
    simp only [validDT, Bool.and_eq_true, decide_eq_true_eq]
    repeat' apply And.intro
    all_goals first | omega | exact hdm | trivial

theorem slash_no_dash {a b y : Nat} :
    ('-' : Char) ∉ (natChars a ++ '/' :: (natChars b ++ '/' :: pad4 y)).map Char.toLower := by
  rw [map_toLower_slash]
  intro hmem
  rcases mem_slashChars hmem with h | ⟨m, h⟩
  · exact absurd h (by decide)
  · exact absurd h.symm ((digitChar_props m).2.2.1)

theorem slash_no_comma {a b y : Nat} :
    (',' : Char) ∉ (natChars a ++ '/' :: (natChars b ++ '/' :: pad4 y)).map Char.toLower := by
  rw [map_toLower_slash]
  intro hmem
  rcases mem_slashChars hmem with h | ⟨m, h⟩
  · exact absurd h (by decide)
  · exact absurd h.symm ((digitChar_props m).2.2.2.2.1)

theorem slash_no_space {a b y : Nat} :
    ∀ c ∈ (natChars a ++ '/' :: (natChars b ++ '/' :: pad4 y)).map Char.toLower,
      pySpace c = false := by
  rw [map_toLower_slash]
  intro c hc
  rcases mem_slashChars hc with h | ⟨m, h⟩
  · rw [h]; decide
  · rw [h]; exact (digitChar_props m).2.1

theorem slash_chars_no_space {a b y : Nat} :
    ∀ c ∈ natChars a ++ '/' :: (natChars b ++ '/' :: pad4 y), pySpace c = false := by
  intro c hc
  rcases mem_slashChars hc with h | ⟨m, h⟩
  · rw [h]; decide
  · rw [h]; exact (digitChar_props m).2.1

/-- The `parse_date` format loop on an `A/B/YYYY` string: the first six
formats fail (they require a dash, a comma or whitespace), so the loop
reaches the `%m/%d/%Y` / `%d/%m/%Y` pair in order. -/
theorem tryFormats_slash (a b y : Nat) :
    tryFormats dateFormats (natChars a ++ '/' :: (natChars b ++ '/' :: pad4 y)) =
      match strptimeRun [FTok.M2, .lit '/', .D2, .lit '/', .Y4]
          (natChars a ++ '/' :: (natChars b ++ '/' :: pad4 y)) with
      | some t => some t
      | none =>
        tryFormats
          [[FTok.D2, .lit '/', .M2, .lit '/', .Y4],
           [.D2, .lit '-', .M2, .lit '-', .Y4],
           [.M2, .lit '-', .D2, .lit '-', .Y4],
           [.D2, .space, .MonthFull, .space, .Y4],
           [.D2, .space, .MonthAbbr, .space, .Y4]]
          (natChars a ++ '/' :: (natChars b ++ '/' :: pad4 y)) := by
  have h1 : strptimeRun fmtYmd
      (natChars a ++ '/' :: (natChars b ++ '/' :: pad4 y)) = none :=
    strptimeRun_none_of_lit (by decide) slash_no_dash
  have h2 : strptimeRun
      [FTok.Y4, .lit '-', .M2, .lit '-', .D2, .space, .H24, .lit ':', .Min, .lit ':', .Sec]
      (natChars a ++ '/' :: (natChars b ++ '/' :: pad4 y)) = none :=
    strptimeRun_none_of_space (by decide) slash_no_space
  have h3 : strptimeRun [FTok.MonthFull, .space, .D2, .lit ',', .space, .Y4]
      (natChars a ++ '/' :: (natChars b ++ '/' :: pad4 y)) = none :=
    strptimeRun_none_of_lit (by decide) slash_no_comma
  have h4 : strptimeRun [FTok.MonthAbbr, .space, .D2, .lit ',', .space, .Y4]
      (natChars a ++ '/' :: (natChars b ++ '/' :: pad4 y)) = none :=
    strptimeRun_none_of_lit (by decide) slash_no_comma
  have h5 : strptimeRun
      [FTok.MonthFull, .space, .D2, .lit ',', .space, .Y4, .space, .I12, .lit ':', .Min, .space, .AmPm]
      (natChars a ++ '/' :: (natChars b ++ '/' :: pad4 y)) = none :=
    strptimeRun_none_of_lit (by decide) slash_no_comma
  have h6 : strptimeRun
      [FTok.MonthAbbr, .space, .D2, .lit ',', .space, .Y4, .space, .I12, .lit ':', .Min, .space, .AmPm]
      (natChars a ++ '/' :: (natChars b ++ '/' :: pad4 y)) = none :=
    strptimeRun_none_of_lit (by decide) slash_no_comma
  simp only [dateFormats, tryFormats, h1, h2, h3, h4, h5, h6]

theorem slashString_ne_empty (a b y : Nat) : slashString a b y ≠ "" := by
  unfold slashString
  intro h
  have : (natChars a ++ '/' :: (natChars b ++ '/' :: pad4 y)) = [] := by
    have h2 := congrArg String.data h
    simp only [slashString] at h2
    exact h2
  unfold natChars at this
  split at this <;> simp at this

theorem parse_date_slash_small {a b y : Nat} (ha1 : 1 ≤ a) (ha : a ≤ 12)
    (hb1 : 1 ≤ b) (hb : b ≤ 12) (hy1 : 1 ≤ y) (hy : y ≤ 9999) :
    parse_date (some (slashString a b y)) = some ⟨y, a, b, 0, 0, 0, 0, none⟩ := by
  unfold parse_date parse_date_full
  dsimp only
  rw [if_neg (slashString_ne_empty a b y)]
  have hdata : (slashString a b y).data = natChars a ++ '/' :: (natChars b ++ '/' :: pad4 y) := by
    unfold slashString
    rfl
  rw [hdata, pyStrip_eq_self slash_chars_no_space, tryFormats_slash,
      strptime_slash_small ha1 ha hb1 hb hy1 hy]

theorem parse_date_slash_big {a b y : Nat} (h13 : 13 ≤ a) (h31 : a ≤ 31)
    (hb1 : 1 ≤ b) (hb : b ≤ 12) (hy1 : 1 ≤ y) (hy : y ≤ 9999)
    (hdm : a ≤ daysInMonth y b) :
    parse_date (some (slashString a b y)) = some ⟨y, b, a, 0, 0, 0, 0, none⟩ := by
  unfold parse_date parse_date_full
  dsimp only
  rw [if_neg (slashString_ne_empty a b y)]
  have hdata : (slashString a b y).data = natChars a ++ '/' :: (natChars b ++ '/' :: pad4 y) := by
    unfold slashString
    rfl
  rw [hdata, pyStrip_eq_self slash_chars_no_space, tryFormats_slash,
      strptime_fmt7_big_none h13 h31]
  simp only [tryFormats, strptime_slash_big h13 h31 hb1 hb hy1 hy hdm]

/-- C10: for `A/B/YYYY` strings readable under both conventions
(`A, B ≤ 12`), `parse_date` answers month-first (month `A`, day `B`)
because `'%m/%d/%Y'` precedes `'%d/%m/%Y'` in the fixed format list; the
day-first reading is reached only when `A > 12` (then `%m/%d/%Y` cannot
match and `%d/%m/%Y` yields month `B`, day `A`). -/
theorem C10_slash_date_month_first :
    (∀ a b y : Nat, 1 ≤ a → a ≤ 12 → 1 ≤ b → b ≤ 12 → 1 ≤ y → y ≤ 9999 →
      parse_date (some (slashString a b y)) = some ⟨y, a, b, 0, 0, 0, 0, none⟩) ∧
    (∀ a b y : Nat, 13 ≤ a → a ≤ 31 → 1 ≤ b → b ≤ 12 → 1 ≤ y → y ≤ 9999 →
      a ≤ daysInMonth y b →
      parse_date (some (slashString a b y)) = some ⟨y, b, a, 0, 0, 0, 0, none⟩) := by
  constructor
  · intro a b y ha1 ha hb1 hb hy1 hy
    exact parse_date_slash_small ha1 ha hb1 hb hy1 hy
  · intro a b y h13 h31 hb1 hb hy1 hy hdm
    exact parse_date_slash_big h13 h31 hb1 hb hy1 hy hdm

/-- C10 witness: `3/4/2023` parses month-first to March 4th, while
`13/4/2023` falls through to the day-first format, April 13th. -/
theorem C10_slash_date_month_first_witness :
    parse_date (some (slashString 3 4 2023)) = some ⟨2023, 3, 4, 0, 0, 0, 0, none⟩ ∧
    parse_date (some (slashString 13 4 2023)) = some ⟨2023, 4, 13, 0, 0, 0, 0, none⟩ := by
  exact ⟨C10_slash_date_month_first.1 3 4 2023 (by decide) (by decide) (by decide)
           (by decide) (by decide) (by decide),
         C10_slash_date_month_first.2 13 4 2023 (by decide) (by decide) (by decide)
           (by decide) (by decide) (by decide) (by decide)⟩

/-- Every value `mkDT` produces passed the constructor checks. -/
theorem mkDT_valid {y mo d h mi s us : Nat} {tz : Option Int} {t : PyDateTime}
    (hm : mkDT y mo d h mi s us tz = some t) : validDT t = true := by
  unfold mkDT at hm
  dsimp only at hm
  split at hm
  · cases hm
    assumption
  · cases hm

theorem strptimeRun_valid {toks : List FTok} {cs : List Char} {t : PyDateTime}
    (h : strptimeRun toks cs = some t) : validDT t = true := by
  unfold strptimeRun at h
  split at h
  · exact mkDT_valid h
  · cases h

theorem tryFormats_valid : ∀ {fmts : List (List FTok)} {cs : List Char} {t : PyDateTime},
    tryFormats fmts cs = some t → validDT t = true := by
  intro fmts
  induction fmts with
  | nil =>
    intro cs t h
    cases h
  | cons f fs ih =>
    intro cs t h
    simp only [tryFormats] at h
    cases hf : strptimeRun f cs with
    | some u =>
      rw [hf] at h
      cases h
      exact strptimeRun_valid hf
    | none =>
      rw [hf] at h
      exact ih h

theorem fromisoChars_valid {cs : List Char} {t : PyDateTime}
    (h : fromisoChars cs = some t) : validDT t = true := by
  unfold fromisoChars at h
  repeat
    first
      | split at h
      | exact mkDT_valid h
      | cases h
      | dsimp only at h

theorem parse_date_valid {s : String} {t : PyDateTime}
    (h : parse_date (some s) = some t) : validDT t = true := by
  unfold parse_date parse_date_full at h
  dsimp only at h
  split at h
  · cases h
  · split at h
    · rename_i u hu
      cases h
      exact tryFormats_valid hu
    · split at h
      · rename_i u hu
        cases h
        exact fromisoChars_valid hu
      · cases h

theorem readD2_pad2 {n : Nat} (hn : n ≤ 99) (rest : List Char) :
    readD2 (pad2 n ++ rest) = some (n, rest) := by
  simp only [pad2, List.cons_append, List.nil_append, readD2, toDigit_digitChar]
  have : 10 * (n / 10 % 10) + n % 10 = n := by omega
  rw [this]

theorem readD4_pad4 {n : Nat} (hn : n ≤ 9999) (rest : List Char) :
    readD4 (pad4 n ++ rest) = some (n, rest) := by
  simp only [pad4, List.cons_append, List.nil_append, readD4, toDigit_digitChar]
  have : 1000 * (n / 1000 % 10) + 100 * (n / 100 % 10) + 10 * (n / 10 % 10) + n % 10 = n := by
    omega
  rw [this]

theorem digitsToNat_pad6 {n : Nat} (hn : n ≤ 999999) : digitsToNat (pad6 n) = some n := by
  simp only [pad6, digitsToNat, digitsToNatAux, toDigit_digitChar]
  congr 1
  omega

theorem readD2_pad2_nil {n : Nat} (hn : n ≤ 99) : readD2 (pad2 n) = some (n, []) := by
  simpa using readD2_pad2 hn []

theorem parseHMSF_iso {h mi s us : Nat} (hh : h ≤ 99) (hmi : mi ≤ 99) (hs : s ≤ 99)
    (hus : us ≤ 999999) :
    parseHMSF (pad2 h ++ ':' :: (pad2 mi ++ ':' :: (pad2 s ++
      (if us = 0 then [] else '.' :: pad6 us)))) = some (h, mi, s, us) := by
  by_cases h0 : us = 0
  · subst h0
    simp only [ite_true, List.append_nil]
    unfold parseHMSF
    rw [readD2_pad2 hh]
    dsimp only
    simp only [eq_self_iff_true, ite_true]
    rw [readD2_pad2 hmi]
    dsimp only
    simp only [eq_self_iff_true, ite_true]
    rw [readD2_pad2_nil hs]
  · rw [if_neg h0]
    unfold parseHMSF
    rw [readD2_pad2 hh]
    dsimp only
    simp only [eq_self_iff_true, ite_true]
    rw [readD2_pad2 hmi]
    dsimp only
    simp only [eq_self_iff_true, ite_true]
    rw [readD2_pad2 hs]
    dsimp only
    simp only [eq_self_iff_true, ite_true]
    rw [digitsToNat_pad6 hus]
    simp [pad6]

theorem findSplit_none {c : Char} : ∀ {l : List Char}, (∀ x ∈ l, x ≠ c) →
    findSplit c l = none := by
  intro l
  induction l with
  | nil => intro _; rfl
  | cons x xs ih =>
    intro h
    unfold findSplit
    rw [if_neg (h x (by simp)), ih (fun u hu => h u (by simp [hu]))]
    rfl

theorem findSplit_found {c : Char} : ∀ {front : List Char} (back : List Char),
    (∀ x ∈ front, x ≠ c) → findSplit c (front ++ c :: back) = some (front, back) := by
  intro front
  induction front with
  | nil =>
    intro back _
    simp [findSplit]
  | cons x xs ih =>
    intro back h
    simp only [List.cons_append]
    unfold findSplit
    rw [if_neg (h x (by simp)), ih back (fun u hu => h u (by simp [hu]))]
    rfl

theorem splitTzParts_none {l : List Char} (h : ∀ x ∈ l, x ≠ '-' ∧ x ≠ '+') :
    splitTzParts l = (l, none) := by
  unfold splitTzParts
  rw [findSplit_none (fun x hx => (h x hx).1), findSplit_none (fun x hx => (h x hx).2)]

theorem splitTzParts_neg {front back : List Char} (hfr : ∀ x ∈ front, x ≠ '-') :
    splitTzParts (front ++ '-' :: back) = (front, some (true, back)) := by
  unfold splitTzParts
  rw [findSplit_found back hfr]

theorem splitTzParts_pos {front back : List Char}
    (hfr : ∀ x ∈ front, x ≠ '-' ∧ x ≠ '+') (hback : ∀ x ∈ back, x ≠ '-') :
    splitTzParts (front ++ '+' :: back) = (front, some (false, back)) := by
  unfold splitTzParts
  rw [findSplit_none ?h1, findSplit_found back (fun x hx => (hfr x hx).2)]
  case h1 =>
    intro x hx
    rcases List.mem_append.mp hx with hx | hx
    · exact (hfr x hx).1
    · rcases List.mem_cons.mp hx with rfl | hx
      · decide
      · exact hback x hx

theorem mem_timeCore {c : Char} {h mi s us : Nat}
    (hmem : c ∈ pad2 h ++ ':' :: (pad2 mi ++ ':' :: (pad2 s ++
      (if us = 0 then [] else '.' :: pad6 us)))) :
    (∃ m, c = digitChar m) ∨ c = ':' ∨ c = '.' := by
  rcases List.mem_append.mp hmem with hx | hx
  · exact .inl (mem_pad2 hx)
  · rcases List.mem_cons.mp hx with rfl | hx
    · exact .inr (.inl rfl)
    · rcases List.mem_append.mp hx with hx | hx
      · exact .inl (mem_pad2 hx)
      · rcases List.mem_cons.mp hx with rfl | hx
        · exact .inr (.inl rfl)
        · rcases List.mem_append.mp hx with hx | hx
          · exact .inl (mem_pad2 hx)
          · split at hx
            · cases hx
            · rcases List.mem_cons.mp hx with rfl | hx
              · exact .inr (.inr rfl)
              · exact .inl (mem_pad6 hx)

theorem timeCore_no_sign {c : Char}
    (h : (∃ m, c = digitChar m) ∨ c = ':' ∨ c = '.') : c ≠ '-' ∧ c ≠ '+' := by
  rcases h with ⟨m, rfl⟩ | rfl | rfl
  · exact ⟨(digitChar_props m).2.2.1, (digitChar_props m).2.2.2.2.2.2.2.1⟩
  · exact ⟨by decide, by decide⟩
  · exact ⟨by decide, by decide⟩

theorem mem_tzDigits {c : Char} {hh mm : Nat}
    (hmem : c ∈ pad2 hh ++ ':' :: pad2 mm) : c ≠ '-' := by
  have : (∃ m, c = digitChar m) ∨ c = ':' := by
    rcases List.mem_append.mp hmem with hx | hx
    · exact .inl (mem_pad2 hx)
    · rcases List.mem_cons.mp hx with rfl | hx
      · exact .inr rfl
      · exact .inl (mem_pad2 hx)
  rcases this with ⟨m, rfl⟩ | rfl
  · exact (digitChar_props m).2.2.1
  · decide

theorem fromiso_roundtrip {t : PyDateTime} (hv : validDT t = true) :
    fromisoChars (isoChars t) = some t := by
  obtain ⟨y, mo, d, h, mi, s, us, tz⟩ := t
  have hb := hv
  simp only [validDT, Bool.and_eq_true, decide_eq_true_eq] at hb
  obtain ⟨⟨⟨⟨⟨⟨⟨⟨⟨⟨hy1, hy⟩, hmo1⟩, hmo⟩, hd1⟩, hd⟩, hh⟩, hmi⟩, hs⟩, hus⟩, htz⟩ := hb
  unfold isoChars
  dsimp only
  simp only [List.cons_append, List.append_assoc]
  cases tz with
  | none =>
    dsimp only
    simp only [List.append_nil]
    unfold fromisoChars
    rw [readD4_pad4 hy]
    dsimp only
    simp only [eq_self_iff_true, ite_true]
    rw [readD2_pad2 (show mo ≤ 99 by omega)]
    dsimp only
    simp only [eq_self_iff_true, ite_true]
    rw [readD2_pad2 (le_trans (le_trans hd (daysInMonth_le_31 y mo)) (by norm_num))]
    dsimp only
    rw [splitTzParts_none (fun x hx => timeCore_no_sign (mem_timeCore hx))]
    dsimp only
    rw [parseHMSF_iso (show h ≤ 99 by omega) (show mi ≤ 99 by omega)
        (show s ≤ 99 by omega) hus]
    dsimp only
    simp only [mkDT, hv, eq_self_iff_true, ite_true]
  | some off =>
    dsimp only at htz
    rw [decide_eq_true_eq] at htz
    dsimp only
    unfold fromisoChars
    rw [readD4_pad4 hy]
    dsimp only
    simp only [eq_self_iff_true, ite_true]
    rw [readD2_pad2 (show mo ≤ 99 by omega)]
    dsimp only
    simp only [eq_self_iff_true, ite_true]
    rw [readD2_pad2 (le_trans (le_trans hd (daysInMonth_le_31 y mo)) (by norm_num))]
    dsimp only
    by_cases hoff : off < 0
    · rw [if_pos hoff]
      rw [show pad2 h ++ ':' :: (pad2 mi ++ ':' :: (pad2 s ++
            ((if us = 0 then [] else '.' :: pad6 us) ++
              '-' :: (pad2 (off.natAbs / 60) ++ ':' :: pad2 (off.natAbs % 60))))) =
          (pad2 h ++ ':' :: (pad2 mi ++ ':' :: (pad2 s ++
            (if us = 0 then [] else '.' :: pad6 us)))) ++
              '-' :: (pad2 (off.natAbs / 60) ++ ':' :: pad2 (off.natAbs % 60)) from by
        simp [List.append_assoc]]
      rw [splitTzParts_neg (fun x hx => (timeCore_no_sign (mem_timeCore hx)).1)]
      dsimp only
      rw [parseHMSF_iso (show h ≤ 99 by omega) (show mi ≤ 99 by omega)
          (show s ≤ 99 by omega) hus]
      dsimp only
      simp only [pad2, List.cons_append, List.nil_append]
      simp only [eq_self_iff_true, ite_true, toDigit_digitChar]
      rw [show (10 * (off.natAbs / 60 / 10 % 10) + off.natAbs / 60 % 10) * 60 +
            (10 * (off.natAbs % 60 / 10 % 10) + off.natAbs % 60 % 10) = off.natAbs from by
        omega]
      rw [if_pos (by omega : off.natAbs < 1440)]
      rw [show -((off.natAbs : Nat) : Int) = off from by omega]
      simp [mkDT, hv]
    · rw [if_neg hoff]
      rw [show pad2 h ++ ':' :: (pad2 mi ++ ':' :: (pad2 s ++
            ((if us = 0 then [] else '.' :: pad6 us) ++
              '+' :: (pad2 (off.natAbs / 60) ++ ':' :: pad2 (off.natAbs % 60))))) =
          (pad2 h ++ ':' :: (pad2 mi ++ ':' :: (pad2 s ++
            (if us = 0 then [] else '.' :: pad6 us)))) ++
              '+' :: (pad2 (off.natAbs / 60) ++ ':' :: pad2 (off.natAbs % 60)) from by
        simp [List.append_assoc]]
      rw [splitTzParts_pos (fun x hx => timeCore_no_sign (mem_timeCore hx))
          (fun x hx => mem_tzDigits hx)]
      dsimp only
      rw [parseHMSF_iso (show h ≤ 99 by omega) (show mi ≤ 99 by omega)
          (show s ≤ 99 by omega) hus]
      dsimp only
      simp only [pad2, List.cons_append, List.nil_append]
      simp only [eq_self_iff_true, ite_true, toDigit_digitChar]
      rw [show (10 * (off.natAbs / 60 / 10 % 10) + off.natAbs / 60 % 10) * 60 +
            (10 * (off.natAbs % 60 / 10 % 10) + off.natAbs % 60 % 10) = off.natAbs from by
        omega]
      rw [if_pos (by omega : off.natAbs < 1440)]
      rw [show ((off.natAbs : Nat) : Int) = off from by omega]
      simp [mkDT, hv]

theorem mem_isoChars {c : Char} {t : PyDateTime} (hmem : c ∈ isoChars t) :
    (∃ m, c = digitChar m) ∨ c = '-' ∨ c = ':' ∨ c = 'T' ∨ c = '.' ∨ c = '+' := by
  obtain ⟨y, mo, d, h, mi, s, us, tz⟩ := t
  unfold isoChars at hmem
  dsimp only at hmem
  simp only [List.append_assoc, List.cons_append] at hmem
  rcases List.mem_append.mp hmem with hx | hmem
  · exact .inl (mem_pad4 hx)
  · rcases List.mem_cons.mp hmem with rfl | hmem
    · exact .inr (.inl rfl)
    · rcases List.mem_append.mp hmem with hx | hmem
      · exact .inl (mem_pad2 hx)
      · rcases List.mem_cons.mp hmem with rfl | hmem
        · exact .inr (.inl rfl)
        · rcases List.mem_append.mp hmem with hx | hmem
          · exact .inl (mem_pad2 hx)
          · rcases List.mem_cons.mp hmem with rfl | hmem
            · exact .inr (.inr (.inr (.inl rfl)))
            · rcases List.mem_append.mp hmem with hx | hmem
              · exact .inl (mem_pad2 hx)
              · rcases List.mem_cons.mp hmem with rfl | hmem
                · exact .inr (.inr (.inl rfl))
                · rcases List.mem_append.mp hmem with hx | hmem
                  · exact .inl (mem_pad2 hx)
                  · rcases List.mem_cons.mp hmem with rfl | hmem
                    · exact .inr (.inr (.inl rfl))
                    · rcases List.mem_append.mp hmem with hx | hmem
                      · exact .inl (mem_pad2 hx)
                      · rcases List.mem_append.mp hmem with hx | hmem
                        · split at hx
                          · cases hx
                          · rcases List.mem_cons.mp hx with rfl | hx
                            · exact .inr (.inr (.inr (.inr (.inl rfl))))
                            · exact .inl (mem_pad6 hx)
                        · cases tz with
                          | none => cases hmem
                          | some off =>
                            rcases List.mem_cons.mp hmem with heq | hmem
                            · split at heq
                              · exact .inr (.inl heq)
                              · exact .inr (.inr (.inr (.inr (.inr heq))))
                            · rcases List.mem_append.mp hmem with hx | hmem
                              · exact .inl (mem_pad2 hx)
                              · rcases List.mem_cons.mp hmem with rfl | hx
                                · exact .inr (.inr (.inl rfl))
                                · exact .inl (mem_pad2 hx)

theorem zReplace_id : ∀ {l : List Char}, (∀ c ∈ l, c ≠ 'Z') → zReplace l = l := by
  intro l
  induction l with
  | nil => intro _; rfl
  | cons c cs ih =>
    intro h
    unfold zReplace
    rw [if_neg (h c (by simp)), ih (fun u hu => h u (by simp [hu]))]
    rfl

theorem iso_strip_nospace {t : PyDateTime} : ∀ c ∈ isoChars t, pySpace c = false := by
  intro c hc
  rcases mem_isoChars hc with ⟨m, rfl⟩ | rfl | rfl | rfl | rfl | rfl
  · exact (digitChar_props m).2.1
  all_goals decide

theorem iso_no_Z {t : PyDateTime} : ∀ c ∈ isoChars t, c ≠ 'Z' := by
  intro c hc
  rcases mem_isoChars hc with ⟨m, rfl⟩ | rfl | rfl | rfl | rfl | rfl
  · exact (digitChar_props m).2.2.2.2.2.2.2.2.1
  all_goals decide

theorem iso_lower_nospace {t : PyDateTime} :
    ∀ c ∈ (isoChars t).map Char.toLower, pySpace c = false := by
  intro c hc
  rcases List.mem_map.mp hc with ⟨c0, hc0, rfl⟩
  rcases mem_isoChars hc0 with ⟨m, rfl⟩ | rfl | rfl | rfl | rfl | rfl
  · rw [(digitChar_props m).1]
    exact (digitChar_props m).2.1
  all_goals decide

theorem iso_lower_noslash {t : PyDateTime} :
    ('/' : Char) ∉ (isoChars t).map Char.toLower := by
  intro hc
  rcases List.mem_map.mp hc with ⟨c0, hc0, heq⟩
  rcases mem_isoChars hc0 with ⟨m, rfl⟩ | rfl | rfl | rfl | rfl | rfl
  · rw [(digitChar_props m).1] at heq
    exact (digitChar_props m).2.2.2.1 heq
  all_goals exact absurd heq (by decide)

theorem isoChars_length (t : PyDateTime) : 19 ≤ (isoChars t).length := by
  obtain ⟨y, mo, d, h, mi, s, us, tz⟩ := t
  unfold isoChars
  dsimp only
  cases tz <;> by_cases h0 : us = 0 <;>
    simp [h0, pad4, pad2, pad6]

theorem tryFormats_iso_none (t : PyDateTime) :
    tryFormats dateFormats (isoChars t) = none := by
  have hlen := isoChars_length t
  have hsYmd : ∀ tk ∈ fmtYmd, tk = FTok.Y4 ∨ tk = FTok.M2 ∨ tk = FTok.D2 ∨
      ∃ c, tk = FTok.lit c := by
    intro tk htk
    fin_cases htk
    · exact .inl rfl
    · exact .inr (.inr (.inr ⟨_, rfl⟩))
    · exact .inr (.inl rfl)
    · exact .inr (.inr (.inr ⟨_, rfl⟩))
    · exact .inr (.inr (.inl rfl))
  have hs9 : ∀ tk ∈ [FTok.D2, .lit '-', .M2, .lit '-', .Y4],
      tk = FTok.Y4 ∨ tk = FTok.M2 ∨ tk = FTok.D2 ∨ ∃ c, tk = FTok.lit c := by
    intro tk htk
    fin_cases htk
    · exact .inr (.inr (.inl rfl))
    · exact .inr (.inr (.inr ⟨_, rfl⟩))
    · exact .inr (.inl rfl)
    · exact .inr (.inr (.inr ⟨_, rfl⟩))
    · exact .inl rfl
  have hs10 : ∀ tk ∈ [FTok.M2, .lit '-', .D2, .lit '-', .Y4],
      tk = FTok.Y4 ∨ tk = FTok.M2 ∨ tk = FTok.D2 ∨ ∃ c, tk = FTok.lit c := by
    intro tk htk
    fin_cases htk
    · exact .inr (.inl rfl)
    · exact .inr (.inr (.inr ⟨_, rfl⟩))
    · exact .inr (.inr (.inl rfl))
    · exact .inr (.inr (.inr ⟨_, rfl⟩))
    · exact .inl rfl
  have h1 : strptimeRun fmtYmd (isoChars t) = none :=
    strptimeRun_none_of_long hsYmd (by
      have : fmtBound fmtYmd = 10 := by rfl
      omega)
  have h2 : strptimeRun
      [FTok.Y4, .lit '-', .M2, .lit '-', .D2, .space, .H24, .lit ':', .Min, .lit ':', .Sec]
      (isoChars t) = none :=
    strptimeRun_none_of_space (by decide) iso_lower_nospace
  have h3 : strptimeRun [FTok.MonthFull, .space, .D2, .lit ',', .space, .Y4]
      (isoChars t) = none :=
    strptimeRun_none_of_space (by decide) iso_lower_nospace
  have h4 : strptimeRun [FTok.MonthAbbr, .space, .D2, .lit ',', .space, .Y4]
      (isoChars t) = none :=
    strptimeRun_none_of_space (by decide) iso_lower_nospace
  have h5 : strptimeRun
      [FTok.MonthFull, .space, .D2, .lit ',', .space, .Y4, .space, .I12, .lit ':', .Min, .space, .AmPm]
      (isoChars t) = none :=
    strptimeRun_none_of_space (by decide) iso_lower_nospace
  have h6 : strptimeRun
      [FTok.MonthAbbr, .space, .D2, .lit ',', .space, .Y4, .space, .I12, .lit ':', .Min, .space, .AmPm]
      (isoChars t) = none :=
    strptimeRun_none_of_space (by decide) iso_lower_nospace
  have h7 : strptimeRun [FTok.M2, .lit '/', .D2, .lit '/', .Y4] (isoChars t) = none :=
    strptimeRun_none_of_lit (by decide) iso_lower_noslash
  have h8 : strptimeRun [FTok.D2, .lit '/', .M2, .lit '/', .Y4] (isoChars t) = none :=
    strptimeRun_none_of_lit (by decide) iso_lower_noslash
  have h9 : strptimeRun [FTok.D2, .lit '-', .M2, .lit '-', .Y4] (isoChars t) = none :=
    strptimeRun_none_of_long hs9 (by
      have : fmtBound [FTok.D2, .lit '-', .M2, .lit '-', .Y4] = 10 := by rfl
      omega)
  have h10 : strptimeRun [FTok.M2, .lit '-', .D2, .lit '-', .Y4] (isoChars t) = none :=
    strptimeRun_none_of_long hs10 (by
      have : fmtBound [FTok.M2, .lit '-', .D2, .lit '-', .Y4] = 10 := by rfl
      omega)
  have h11 : strptimeRun [FTok.D2, .space, .MonthFull, .space, .Y4] (isoChars t) = none :=
    strptimeRun_none_of_space (by decide) iso_lower_nospace
  have h12 : strptimeRun [FTok.D2, .space, .MonthAbbr, .space, .Y4] (isoChars t) = none :=
    strptimeRun_none_of_space (by decide) iso_lower_nospace
  simp only [dateFormats, tryFormats, h1, h2, h3, h4, h5, h6, h7, h8, h9, h10, h11, h12]

theorem parse_date_isoformat {t : PyDateTime} (hv : validDT t = true) :
    parse_date (some (isoformatStr t)) = some t := by
  unfold parse_date parse_date_full isoformatStr
  dsimp only
  rw [if_neg ?hne]
  case hne =>
    intro h
    have h2 := congrArg String.data h
    have h4 : isoChars t = ([] : List Char) := h2
    have h5 := isoChars_length t
    rw [h4] at h5
    simp at h5
  rw [pyStrip_eq_self iso_strip_nospace, tryFormats_iso_none,
      zReplace_id iso_no_Z, fromiso_roundtrip hv]

/-- C7: `parse_date` is idempotent through its output's canonical ISO
form: whenever `parse_date` succeeds with instant `t`, parsing
`t.isoformat()` again returns exactly `t` (the twelve literal formats
cannot match the ISO rendering, and the ISO parser reads it back). -/
theorem C7_parse_date_idempotent :
    ∀ (s : String) (t : PyDateTime),
      parse_date (some s) = some t →
      parse_date (some (isoformatStr t)) = some t := by
  intro s t h
  exact parse_date_isoformat (parse_date_valid h)

/-- C7 witness: re-parsing the ISO form of the parse of `"2023-03-03"`. -/
theorem C7_parse_date_idempotent_witness :
    parse_date (some (isoformatStr ⟨2023, 3, 3, 0, 0, 0, 0, none⟩)) =
      some ⟨2023, 3, 3, 0, 0, 0, 0, none⟩ :=
  C7_parse_date_idempotent "2023-03-03" ⟨2023, 3, 3, 0, 0, 0, 0, none⟩ (by decide)
